import Mathlib

/-!
Verification development for the conversation branching and streaming-session
engine: shallow embedding of the token budgeter (`src/lib/tokens.ts`), the
model table (`src/lib/models.ts`), the streaming session registry
(`src/lib/stream-registry.ts`), the generation orchestrator route
(`src/app/api/stream/route.ts`) and the client conversation model
(`src/lib/chat-store.ts`), together with theorems settling the frozen claims.

JavaScript `number` arithmetic on the headroom ratio is modelled by exact
rationals; string lengths are measured in UTF-16 code units as in JS.
-/

/-! ## JS string primitives -/

/-- UTF-16 code-unit count of one character (JS `String.prototype.length`
counts astral characters as a surrogate pair, i.e. 2 units). -/
def utf16Len (c : Char) : Nat := if c.toNat ≥ 0x10000 then 2 else 1

/-- JS string length (UTF-16 code units) of a character list. -/
def utf16Length (l : List Char) : Nat := (l.map utf16Len).sum

/-- Lowercase hex digit, as emitted by `JSON.stringify` unicode escapes. -/
def hexDigitChar (n : Nat) : Char :=
  if n < 10 then Char.ofNat (48 + n) else Char.ofNat (87 + n)

/-- Left brace character (written via its code point). -/
def lbrace : Char := Char.ofNat 123

/-- Right brace character (written via its code point). -/
def rbrace : Char := Char.ofNat 125

/-- `JSON.stringify` escaping of a single character inside a string literal. -/
def escapeChar (c : Char) : List Char :=
  if c = '"' then ['\\', '"']
  else if c = '\\' then ['\\', '\\']
  else if c = Char.ofNat 8 then ['\\', 'b']
  else if c = Char.ofNat 9 then ['\\', 't']
  else if c = Char.ofNat 10 then ['\\', 'n']
  else if c = Char.ofNat 12 then ['\\', 'f']
  else if c = Char.ofNat 13 then ['\\', 'r']
  else if c.toNat < 32 then
    ['\\', 'u', '0', '0', hexDigitChar (c.toNat / 16), hexDigitChar (c.toNat % 16)]
  else [c]

/-- `JSON.stringify` escaping of a whole string body. -/
def escapeList (s : List Char) : List Char := s.flatMap escapeChar

/-- `JSON.stringify` of a string value: quoted, escaped body. -/
def quoteJson (s : List Char) : List Char := '"' :: (escapeList s ++ ['"'])

/-! ## `src/lib/models.ts` -/

/-- Model metadata record (`ModelInfo` in `models.ts`). Model ids are strings
(the route casts arbitrary stored strings to `ChatModelId`). -/
structure ModelInfo where
  id : String
  label : String
  maxContextTokens : Nat
  maxCompletionTokens : Nat
  outputHeadroomRatio : ℚ
deriving DecidableEq, Repr

/-- The `MODELS` table of `models.ts`. -/
def MODELS : List ModelInfo :=
  [ ⟨"gpt-4o-mini", "GPT-4o mini", 128000, 16384, 1/10⟩,
    ⟨"gpt-4o", "GPT-4o", 128000, 4096, 1/10⟩,
    ⟨"gpt-4-turbo", "GPT-4 Turbo", 128000, 4096, 1/10⟩,
    ⟨"gpt-3.5-turbo", "GPT-3.5 Turbo", 16000, 4096, 1/10⟩ ]

/-- `DEFAULT_MODEL` of `models.ts`. -/
def DEFAULT_MODEL : String := "gpt-4o-mini"

/-- `getModelInfo` of `models.ts`: find by id, fall back to `MODELS[0]`. -/
def getModelInfo (id : String) : ModelInfo :=
  (MODELS.find? (fun m => m.id = id)).getD (MODELS.head (by decide))

/-! ## `src/lib/tokens.ts` -/

/-- Wire-protocol role (`"system" | "user" | "assistant"`). -/
inductive WireRole
  | system
  | user
  | assistant
deriving DecidableEq, Repr

/-- The role string used on the wire. -/
def WireRole.toStr : WireRole → String
  | .system => "system"
  | .user => "user"
  | .assistant => "assistant"

/-- `ChatMessage` of `tokens.ts`: role/content pair sent to the completion
API. -/
structure ChatMessage where
  role : WireRole
  content : String
deriving DecidableEq, Repr

/-- `JSON.stringify(msg)` for a `ChatMessage` (keys in insertion order:
`role`, then `content`). -/
def serializeChatMessage (m : ChatMessage) : List Char :=
  lbrace ::
    (quoteJson "role".toList ++ ':' :: quoteJson m.role.toStr.toList ++
      ',' :: quoteJson "content".toList ++ ':' :: quoteJson m.content.toList ++
      [rbrace])

/-- `countTokensForModel` of `tokens.ts`: `Math.ceil(text.length / 4)`. -/
def countTokensForModel (_model : String) (text : List Char) : Nat :=
  (utf16Length text + 3) / 4

/-- `pushAndMeasure` of `buildPrompt`: token cost of the serialized message. -/
def pushAndMeasure (model : String) (msg : ChatMessage) : Nat :=
  countTokensForModel model (serializeChatMessage msg)

/-- The `for (let i = history.length - 1; i >= 0; i--)` loop of `buildPrompt`,
acting on the reversed history: include a message unless doing so would push
the running sum above `target`, in which case stop (`break`). Returns the
included messages (most-recent first) and the final running sum. -/
def slideWindow (cost : ChatMessage → Nat) (target : ℤ) :
    Nat → List ChatMessage → List ChatMessage × Nat
  | sum, [] => ([], sum)
  | sum, m :: rest =>
    if ((sum + cost m : Nat) : ℤ) > target then ([], sum)
    else ((m :: (slideWindow cost target (sum + cost m) rest).1),
          (slideWindow cost target (sum + cost m) rest).2)

/-- Result record of `buildPrompt`. -/
structure BuildPromptResult where
  messages : List ChatMessage
  promptTokens : Nat
  maxCompletionTokens : ℤ
deriving DecidableEq, Repr

/-- `headroom = Math.floor(maxContextTokens * outputHeadroomRatio)` of
`buildPrompt` (JS float arithmetic modelled by exact rationals). -/
def bpHeadroom (maxContextTokens : Nat) (outputHeadroomRatio : ℚ) : ℤ :=
  Int.floor ((maxContextTokens : ℚ) * outputHeadroomRatio)

/-- `target = maxContextTokens - headroom` of `buildPrompt`. -/
def bpTarget (maxContextTokens : Nat) (outputHeadroomRatio : ℚ) : ℤ :=
  (maxContextTokens : ℤ) - bpHeadroom maxContextTokens outputHeadroomRatio

/-- `buildPrompt` of `tokens.ts`. The JS code `push`es the system message
into the empty array and then `unshift`s each selected history message, so
the selected history (chronological) ends up in front of the system
message. -/
def buildPrompt (model : String) (systemPrompt : String) (history : List ChatMessage)
    (maxContextTokens : Nat) (outputHeadroomRatio : ℚ) : BuildPromptResult :=
  ⟨((slideWindow (pushAndMeasure model) (bpTarget maxContextTokens outputHeadroomRatio)
      (pushAndMeasure model ⟨.system, systemPrompt⟩) history.reverse).1).reverse
      ++ [⟨.system, systemPrompt⟩],
    (slideWindow (pushAndMeasure model) (bpTarget maxContextTokens outputHeadroomRatio)
      (pushAndMeasure model ⟨.system, systemPrompt⟩) history.reverse).2,
    bpHeadroom maxContextTokens outputHeadroomRatio⟩

/-! ## Message store data model (Prisma `Message` rows) -/

/-- Stored message role. -/
inductive Role
  | SYSTEM
  | USER
  | ASSISTANT
deriving DecidableEq, Repr

/-- Stored message status. -/
inductive Status
  | STREAMING
  | COMPLETE
  | INTERRUPTED
  | ERROR
deriving DecidableEq, Repr

/-- A Prisma `Message` row (fields used by the orchestrator). `messageId` is
the client-visible UUID, modelled as a natural number. Creation order is the
position in the store list (`createdAt` ascending). -/
structure MsgRow where
  messageId : Nat
  role : Role
  content : String
  status : Status
  parentId : Option Nat
  variantIndex : Nat
  model : Option String
  promptTokens : Option Nat
  completionTokens : Option Nat
  finishReason : Option String
deriving DecidableEq, Repr

/-! ## Server-sent events (the wire frames of `route.ts`) -/

/-- One SSE frame emitted by the orchestrator, by event name. -/
inductive SseEvent
  | startEv (messageId : Nat) (parentId : Option Nat) (model : String)
  | tokenEv (token : String)
  | finishEv (finishReason : String)
  | statusEv
  | structuredDataEv
  | vizConfigEv
  | titleEv (title : String)
  | endEv (status : String)
  | errorEv (message : String)
deriving DecidableEq, Repr

/-- JS `x || d` on an optional string: `undefined`, `null` and `""` are
falsy and yield the default. -/
def jsOrDefault (s : Option String) (d : String) : String :=
  match s with
  | none => d
  | some v => if v = "" then d else v

/-! ## The catch handler of the streaming loop (`route.ts` lines 357-380) -/

/-- The `catch (err)` branch of the generation stream: on the abort
sentinel (`err.name === "AbortError"`), persist the accumulated content with
status INTERRUPTED and finish reason `"user_cancelled"` and emit
`end(interrupted)`; on any other failure persist the accumulated content
with status ERROR and finish reason `"error"` and emit `error` with a
best-effort message. -/
def handleStreamError (errName : Option String) (errMessage : Option String)
    (accumulated : String) (completionTokens : Nat) (row : MsgRow) :
    MsgRow × List SseEvent :=
  if errName = some "AbortError" then
    ({ row with
        content := accumulated
        status := .INTERRUPTED
        completionTokens := some completionTokens
        finishReason := some "user_cancelled" },
      [.endEv "interrupted"])
  else
    ({ row with
        content := accumulated
        status := .ERROR
        completionTokens := some completionTokens
        finishReason := some "error" },
      [.errorEv (jsOrDefault errMessage "Unknown error occurred")])

/-! ## The streaming loop (`route.ts` lines 212-243) -/

/-- One upstream chunk: an incremental content fragment (possibly empty)
and an optional finish signal. -/
structure StreamChunk where
  delta : String
  finishReason : Option String
deriving DecidableEq, Repr

/-- `SAVE_EVERY_N_TOKENS` of `route.ts`. -/
def SAVE_EVERY_N_TOKENS : Nat := 5

/-- In-flight state of the streaming loop: the in-memory accumulator and
counter, the emitted events, the assistant row content as currently
persisted (`dbContent`/`dbCompletionTokens`), and the checkpoint writes
attempted so far. -/
structure LoopState where
  accumulated : String
  completionTokens : Nat
  events : List SseEvent
  dbContent : String
  dbCompletionTokens : Option Nat
  saveAttempts : List (String × Nat)
deriving DecidableEq, Repr

/-- The body of `for await (const chunk of chatStream)`: on a non-empty
delta, append to the accumulator, bump the counter, emit a `token` event,
and on every `SAVE_EVERY_N_TOKENS`-th fragment attempt a checkpoint write
(`saveFails` says whether the `prisma.message.update` throws; a failure is
caught and only logged). Then emit a `finish` event if the chunk carries a
finish reason. -/
def processChunk (saveFails : Nat → Bool) (st : LoopState) (c : StreamChunk) : LoopState :=
  let st1 :=
    if c.delta = "" then st
    else
      let st2 : LoopState :=
        { st with
          accumulated := st.accumulated ++ c.delta
          completionTokens := st.completionTokens + 1
          events := st.events ++ [.tokenEv c.delta] }
      if st2.completionTokens % SAVE_EVERY_N_TOKENS = 0 then
        if saveFails st2.completionTokens then
          { st2 with saveAttempts :=
              st2.saveAttempts ++ [(st2.accumulated, st2.completionTokens)] }
        else
          { st2 with
            saveAttempts :=
              st2.saveAttempts ++ [(st2.accumulated, st2.completionTokens)]
            dbContent := st2.accumulated
            dbCompletionTokens := some st2.completionTokens }
      else st2
  match c.finishReason with
  | some r => { st1 with events := st1.events ++ [.finishEv r] }
  | none => st1

/-- The whole streaming loop over the upstream chunks. -/
def runStreamLoop (saveFails : Nat → Bool) (chunks : List StreamChunk)
    (init : LoopState) : LoopState :=
  chunks.foldl (processChunk saveFails) init

/-- Loop state at entry (`accumulated = ""`, `completionTokens = 0`), with
the given currently persisted row content. -/
def initLoopState (dbC : String) (dbT : Option Nat) : LoopState :=
  ⟨"", 0, [], dbC, dbT, []⟩

/-- The final `prisma.message.update` after the loop: persist the full
accumulated content with status COMPLETE. -/
def finalizeComplete (st : LoopState) (row : MsgRow) : MsgRow :=
  { row with
    content := st.accumulated
    status := .COMPLETE
    completionTokens := some st.completionTokens }

/-- The non-empty content fragments of a chunk sequence (those that bump
the counter and emit `token` events). -/
def contentFragments (chunks : List StreamChunk) : List String :=
  (chunks.map StreamChunk.delta).filter (fun d => d ≠ "")

/-- The observable (oracle-independent) part of the loop state: the stream
behaviour and checkpoint attempts, without the persisted-row fields. -/
def obs (st : LoopState) : String × Nat × List SseEvent × List (String × Nat) :=
  (st.accumulated, st.completionTokens, st.events, st.saveAttempts)

/-- The checkpoint writes the loop attempts for fragment list `ds`: one at
every 5th fragment, carrying the concatenation so far and the counter. -/
def expectedCheckpoints (ds : List String) : List (String × Nat) :=
  (((List.range ds.length).map (fun n => n + 1)).filter
      (fun n => n % SAVE_EVERY_N_TOKENS = 0)).map
    (fun n => (String.join (ds.take n), n))

/-! ## Server state: store, registry (`stream-registry.ts`), route POST -/

/-- A Prisma `Conversation` row (the fields the route reads/writes). -/
structure ConvRow where
  title : Option String
  model : Option String
deriving DecidableEq, Repr

/-- The message store restricted to one conversation: rows in creation
order (`createdAt` ascending), plus the conversation row. -/
structure Store where
  conv : ConvRow
  messages : List MsgRow
deriving DecidableEq, Repr

/-- Server-side state: the store, the `streamRegistry` entry for this
conversation (the registered `AbortController`, by id), and the log of
controllers on which `abort()` has been invoked. -/
structure SrvState where
  store : Store
  regEntry : Option Nat
  aborted : List Nat
deriving DecidableEq, Repr

/-- `streamRegistry.set`: installs the new controller, replacing any old
entry WITHOUT aborting it. -/
def registrySet (st : SrvState) (c : Nat) : SrvState :=
  { st with regEntry := some c }

/-- `streamRegistry.stop`: aborts the registered controller, if any, and
removes the entry. -/
def registryStop (st : SrvState) : SrvState :=
  match st.regEntry with
  | some c =>
    { st with
      regEntry := none
      aborted := c :: st.aborted }
  | none => st

/-- `streamRegistry.clear`: removes the entry without aborting. -/
def registryClear (st : SrvState) : SrvState :=
  { st with regEntry := none }

/-- Replace the message list of the store. -/
def setMessages (st : SrvState) (msgs : List MsgRow) : SrvState :=
  { st with store := { st.store with messages := msgs } }

/-- Replace the conversation row of the store. -/
def setConv (st : SrvState) (c : ConvRow) : SrvState :=
  { st with store := { st.store with conv := c } }

/-- The request body of the generate endpoint (`Body` in `route.ts`),
after the `?? 0` / `!!` normalizations of lines 66-75. -/
structure GenRequest where
  userMessage : String
  model : Option String
  systemPrompt : Option String
  parentUserMessageId : Option Nat
  userMessageParentId : Option Nat
  variantIndex : Nat
  isRegeneration : Bool
  isEditedPrompt : Bool
  parentId : Option Nat
deriving DecidableEq, Repr

/-- Backward-compat mapping of the deprecated `parentId` field
(`route.ts` lines 77-83): fills whichever of the two parent fields is
empty, according to `isRegeneration`. Returns
`(parentUserMessageId, userMessageParentId)` after mapping. -/
def resolveParents (r : GenRequest) : Option Nat × Option Nat :=
  ((if r.parentUserMessageId = none ∧ r.parentId ≠ none ∧ r.isRegeneration = true
      then r.parentId else r.parentUserMessageId),
   (if r.userMessageParentId = none ∧ r.parentId ≠ none ∧ r.isRegeneration = false
      then r.parentId else r.userMessageParentId))

/-- `prisma.message.findFirst({ role: ASSISTANT or SYSTEM, orderBy:
createdAt desc })`: the most recent non-USER row. -/
def lastNonUserId (msgs : List MsgRow) : Option Nat :=
  ((msgs.filter (fun m => m.role = Role.ASSISTANT ∨ m.role = Role.SYSTEM)).getLast?).map
    MsgRow.messageId

/-- The per-row effect of the edit-path `updateMany`: a STREAMING child of
the prior version `p` becomes INTERRUPTED with reason
`"user_edited_prompt"`; other rows are untouched. -/
def interruptRow (p : Nat) (m : MsgRow) : MsgRow :=
  if m.parentId = some p ∧ m.status = Status.STREAMING then
    { m with
      status := Status.INTERRUPTED
      finishReason := some "user_edited_prompt" }
  else m

/-- `prisma.message.updateMany({ parentId, status: STREAMING } -> {
status: INTERRUPTED, finishReason: "user_edited_prompt" })`. -/
def markInterrupted (p : Nat) (msgs : List MsgRow) : List MsgRow :=
  msgs.map (interruptRow p)

/-- Title auto-population (`route.ts` lines 141-144): set the title to the
first 80 characters of the trimmed user message when this is not a
regeneration, the title is still falsy or the "New Chat" placeholder, and
the message is non-blank. -/
def updateTitleIfMissing (r : GenRequest) (conv : ConvRow) : ConvRow :=
  if r.isRegeneration = false ∧
      (conv.title = none ∨ conv.title = some "" ∨ conv.title = some "New Chat") ∧
      r.userMessage.trim ≠ "" then
    { conv with title := some (r.userMessage.trim.take 80) }
  else conv

/-- Role lower-casing for the wire protocol (`m.role.toLowerCase()`). -/
def roleToWire : Role → WireRole
  | .SYSTEM => .system
  | .USER => .user
  | .ASSISTANT => .assistant

/-- System prompt resolution (`route.ts` lines 158-160): explicit override,
else the first SYSTEM message, else the fixed default. -/
def resolveSystemPrompt (r : GenRequest) (msgs : List MsgRow) : String :=
  match r.systemPrompt with
  | some s => s
  | none =>
    match msgs.find? (fun m => m.role = Role.SYSTEM) with
    | some m => m.content
    | none => "You are a helpful assistant."

/-- User-message creation and versioning (`route.ts` lines 103-139): for a
regeneration, reuse the supplied parent user-message id and create nothing;
otherwise resolve the new USER row parent (edit-chain parent if given,
else most recent non-USER row), on the edited-prompt path first stop the
registry entry and mark STREAMING children of the prior version as
INTERRUPTED, then append the new USER row with status COMPLETE. Returns
the new state and the resolved user-message id. -/
def userCreateStage (req : GenRequest) (newUserId : Nat) (st : SrvState) :
    SrvState × Option Nat :=
  if req.isRegeneration = true then (st, (resolveParents req).1)
  else
    (setMessages
      (match (resolveParents req).2 with
        | some p =>
          if req.isEditedPrompt = true then
            setMessages (registryStop st)
              (markInterrupted p (registryStop st).store.messages)
          else st
        | none => st)
      ((match (resolveParents req).2 with
        | some p =>
          if req.isEditedPrompt = true then
            setMessages (registryStop st)
              (markInterrupted p (registryStop st).store.messages)
          else st
        | none => st).store.messages ++
        [⟨newUserId, .USER, req.userMessage, .COMPLETE,
          (match (resolveParents req).2 with
            | some p => some p
            | none => lastNonUserId st.store.messages), 0, none, none, none, none⟩]),
      some newUserId)

/-- The assistant placeholder row (`route.ts` lines 172-186): empty
content, status STREAMING, parent = resolved user message id. -/
def placeholderRow (req : GenRequest) (newAssistantId : Nat)
    (userMessageId : Option Nat) (chosenModel : String) (promptTokens : Nat) : MsgRow :=
  ⟨newAssistantId, .ASSISTANT, "", .STREAMING, userMessageId, req.variantIndex,
    some chosenModel, some promptTokens, none, none⟩

/-- Outcome of the POST handler up to the response: either a synchronous
single-frame error response, or an open stream whose first frame is the
`start` event. -/
inductive PostOutcome
  | errorResp (message : String)
  | streamResp (assistantMessageId : Nat) (startEvent : SseEvent)
deriving DecidableEq, Repr

/-- The generate endpoint `POST` of `route.ts` up to the point where the
stream is opened (lines 64-199): credential and conversation checks,
user-message creation/versioning, title update, prompt assembly via
`buildPrompt`, assistant placeholder creation, and `streamRegistry.set`
of the new controller (which replaces without aborting). -/
def postPreStream (apiKeyPresent convExists : Bool) (req : GenRequest)
    (newUserId newAssistantId newControllerId : Nat) (st : SrvState) :
    SrvState × PostOutcome :=
  if apiKeyPresent = false then (st, .errorResp "OpenAI API key not configured")
  else if convExists = false then (st, .errorResp "Conversation not found")
  else
    (registrySet
      (setMessages
        (setConv (userCreateStage req newUserId st).1
          (updateTitleIfMissing req (userCreateStage req newUserId st).1.store.conv))
        ((setConv (userCreateStage req newUserId st).1
          (updateTitleIfMissing req (userCreateStage req newUserId st).1.store.conv)).store.messages ++
          [placeholderRow req newAssistantId (userCreateStage req newUserId st).2
            (req.model.getD (st.store.conv.model.getD DEFAULT_MODEL))
            (buildPrompt (req.model.getD (st.store.conv.model.getD DEFAULT_MODEL))
              (resolveSystemPrompt req
                (setConv (userCreateStage req newUserId st).1
                  (updateTitleIfMissing req (userCreateStage req newUserId st).1.store.conv)).store.messages)
              ((setConv (userCreateStage req newUserId st).1
                (updateTitleIfMissing req (userCreateStage req newUserId st).1.store.conv)).store.messages.map
                (fun m => ChatMessage.mk (roleToWire m.role) m.content))
              (getModelInfo (req.model.getD (st.store.conv.model.getD DEFAULT_MODEL))).maxContextTokens
              (getModelInfo (req.model.getD (st.store.conv.model.getD DEFAULT_MODEL))).outputHeadroomRatio).promptTokens]))
      newControllerId,
     .streamResp newAssistantId
      (.startEv newAssistantId (userCreateStage req newUserId st).2
        (req.model.getD (st.store.conv.model.getD DEFAULT_MODEL))))

/-- Number of STREAMING rows in the conversation. -/
def streamingCount (st : SrvState) : Nat :=
  (st.store.messages.filter (fun m => m.status = Status.STREAMING)).length

/-- Concrete state for the C1 counterexample: one COMPLETE user message,
one STREAMING assistant answer, an active registry entry. -/
def c1InitState : SrvState :=
  ⟨⟨⟨some "T", some "gpt-4o-mini"⟩,
    [⟨0, .USER, "hi", .COMPLETE, none, 0, none, none, none, none⟩,
     ⟨1, .ASSISTANT, "he", .STREAMING, some 0, 0, some "gpt-4o-mini", some 10, none, none⟩]⟩,
    some 100, []⟩

/-- Concrete request for the C1 counterexample: a regeneration of the
user message while its first answer is still streaming. -/
def c1RegenReq : GenRequest :=
  ⟨"hi", none, none, some 0, none, 1, true, false, none⟩

/-- Concrete request for the C4 witness: an edited prompt whose edit-chain
parent is user message 0. -/
def c4EditReq : GenRequest :=
  ⟨"hi edited", none, none, none, some 0, 0, false, true, none⟩

/-! ## Reachable store states (create / edit / regenerate operations) -/

/-- The most recent non-USER row among the rows created before position
`i` (what `lastNonUserId` returned when the row at `i` was created). -/
def lastNonUserBefore (msgs : List MsgRow) (i : Nat) : Option Nat :=
  lastNonUserId (msgs.take i)

/-- Linkage invariant for USER rows: the parent is the last non-USER row
preceding the row at creation time (`none` when there is none), or — for
an edited version — an earlier USER row. -/
def UserParentOk (msgs : List MsgRow) : Prop :=
  ∀ i mi, msgs[i]? = some mi → mi.role = Role.USER →
    (mi.parentId = lastNonUserBefore msgs i ∨
      ∃ j mj, j < i ∧ msgs[j]? = some mj ∧ mj.role = Role.USER ∧
        some mj.messageId = mi.parentId)

/-- All message ids in the store are distinct. -/
def IdsNodup (msgs : List MsgRow) : Prop := (msgs.map MsgRow.messageId).Nodup

/-- The request `BranchingChat.handleSendMessage` posts. -/
def sendReq (content : String) : GenRequest :=
  ⟨content, none, none, none, none, 0, false, false, none⟩

/-- The request `BranchingChat.handleEditUserMessage` posts: the
edit-chain parent is the currently selected version `p`. -/
def editReqOf (p : Nat) (content : String) : GenRequest :=
  ⟨content, none, none, none, some p, 0, false, true, none⟩

/-- The request `BranchingChat.handleRegenerateAssistant` posts. -/
def regenReqOf (u : Nat) (content : String) (i : Nat) : GenRequest :=
  ⟨content, none, none, some u, none, i, true, false, none⟩

/-- Store states reachable through the client-initiated operations: send a
new message, edit an existing USER version (the client always passes an
existing USER message id as the edit-chain parent), regenerate against an
existing USER message, plus the orchestrator row updates (checkpoints and
terminal transitions, which never touch a row id, role or parent) and
registry actions. Fresh UUIDs are modelled by freshness side conditions. -/
inductive Reachable : SrvState → Prop
  | init (conv : ConvRow) : Reachable ⟨⟨conv, []⟩, none, []⟩
  | send (st : SrvState) (content : String) (nu na nc : Nat)
      (hnu : ∀ m ∈ st.store.messages, m.messageId ≠ nu)
      (hna : ∀ m ∈ st.store.messages, m.messageId ≠ na)
      (hne : nu ≠ na)
      (hr : Reachable st) :
      Reachable (postPreStream true true (sendReq content) nu na nc st).1
  | edit (st : SrvState) (p : Nat) (content : String) (nu na nc : Nat)
      (hp : ∃ m ∈ st.store.messages, m.messageId = p ∧ m.role = Role.USER)
      (hnu : ∀ m ∈ st.store.messages, m.messageId ≠ nu)
      (hna : ∀ m ∈ st.store.messages, m.messageId ≠ na)
      (hne : nu ≠ na)
      (hr : Reachable st) :
      Reachable (postPreStream true true (editReqOf p content) nu na nc st).1
  | regen (st : SrvState) (u : Nat) (content : String) (i : Nat) (nu na nc : Nat)
      (hu : ∃ m ∈ st.store.messages, m.messageId = u ∧ m.role = Role.USER)
      (hna : ∀ m ∈ st.store.messages, m.messageId ≠ na)
      (hr : Reachable st) :
      Reachable (postPreStream true true (regenReqOf u content i) nu na nc st).1
  | update (st : SrvState) (f : MsgRow → MsgRow)
      (hf : ∀ m, (f m).messageId = m.messageId ∧ (f m).role = m.role ∧
        (f m).parentId = m.parentId)
      (hr : Reachable st) :
      Reachable (setMessages st (st.store.messages.map f))
  | registry (st : SrvState) (reg : Option Nat) (ab : List Nat)
      (hr : Reachable st) :
      Reachable ⟨st.store, reg, ab⟩

/-- A concrete reachable state for the C8 counterexample: send one message,
then edit version 0 twice (the UI lets the user navigate back to version 0
and edit it again), which makes two USER rows share the prior version as
edit-chain parent. -/
def c8State : SrvState :=
  (postPreStream true true (editReqOf 0 "c") 4 5 12
    (postPreStream true true (editReqOf 0 "b") 2 3 11
      (postPreStream true true (sendReq "a") 0 1 10 ⟨⟨⟨none, none⟩, []⟩, none, []⟩).1).1).1

/-! ## C9: the SSE wire format and the client frame reader -/

/-- JSON values as `JSON.stringify` serializes them (numbers restricted to
integers, which covers every numeric payload the orchestrator emits). -/
inductive MiniJson
  | null
  | bool (b : Bool)
  | num (n : Int)
  | str (s : List Char)
  | arr (xs : List MiniJson)
  | obj (fields : List (List Char × MiniJson))

/-- Decimal digits of a natural number, most significant first. -/
def natToChars (n : Nat) : List Char :=
  if h : n < 10 then [Char.ofNat (48 + n)]
  else natToChars (n / 10) ++ [Char.ofNat (48 + n % 10)]
decreasing_by
  exact Nat.div_lt_self (by omega) (by omega)

/-- Decimal representation of an integer (JS number printing for
integers). -/
def intToChars (n : Int) : List Char :=
  if n < 0 then '-' :: natToChars n.natAbs else natToChars n.natAbs

mutual

/-- `JSON.stringify` of a value: no whitespace, fields in insertion
order, strings escaped as in `escapeChar`. -/
def serializeJson : MiniJson → List Char
  | .null => "null".toList
  | .bool true => "true".toList
  | .bool false => "false".toList
  | .num n => intToChars n
  | .str s => quoteJson s
  | .arr xs => '[' :: (serializeElems xs ++ [']'])
  | .obj fs => lbrace :: (serializeFields fs ++ [rbrace])

/-- Comma-separated serialization of array elements. -/
def serializeElems : List MiniJson → List Char
  | [] => []
  | [x] => serializeJson x
  | x :: y :: rest => serializeJson x ++ ',' :: serializeElems (y :: rest)

/-- Comma-separated serialization of object fields (`"key":value`). -/
def serializeFields : List (List Char × MiniJson) → List Char
  | [] => []
  | [kv] => quoteJson kv.1 ++ ':' :: serializeJson kv.2
  | kv :: f :: rest => quoteJson kv.1 ++ ':' :: serializeJson kv.2 ++
      ',' :: serializeFields (f :: rest)

end

/-- The serialized `",value"` tails of the non-first array elements. -/
def serializeTail (xs : List MiniJson) : List Char :=
  xs.flatMap (fun v => ',' :: serializeJson v)

/-- The serialized `",\"key\":value"` tails of the non-first object
fields. -/
def serializeFieldsTail (fs : List (List Char × MiniJson)) : List Char :=
  fs.flatMap (fun kv => ',' :: (quoteJson kv.1 ++ ':' :: serializeJson kv.2))

/-- Decimal digit value of a character, if it is one. -/
def digitVal (c : Char) : Option Nat :=
  if 48 ≤ c.toNat ∧ c.toNat ≤ 57 then some (c.toNat - 48) else none

/-- Whether a character is a decimal digit. -/
def isDigitChar (c : Char) : Bool := decide (48 ≤ c.toNat ∧ c.toNat ≤ 57)

/-- Lowercase-hex digit value of a character, if it is one. -/
def hexVal (c : Char) : Option Nat :=
  if 48 ≤ c.toNat ∧ c.toNat ≤ 57 then some (c.toNat - 48)
  else if 97 ≤ c.toNat ∧ c.toNat ≤ 102 then some (c.toNat - 87)
  else none

/-- Consume further decimal digits, accumulating their value. -/
def parseDigits : List Char → Nat → Nat × List Char
  | [], acc => (acc, [])
  | c :: rest, acc =>
    match digitVal c with
    | some d => parseDigits rest (acc * 10 + d)
    | none => (acc, c :: rest)

/-- Parse a non-empty run of decimal digits. -/
def parseNat : List Char → Option (Nat × List Char)
  | [] => none
  | c :: rest =>
    match digitVal c with
    | some d => some (parseDigits rest d)
    | none => none

/-- Parse an optionally negated decimal integer. -/
def parseIntChars (s : List Char) : Option (Int × List Char) :=
  if s.head? = some '-' then (parseNat s.tail).map (fun p => (-(p.1 : Int), p.2))
  else (parseNat s).map (fun p => ((p.1 : Int), p.2))

/-- The escape-sequence handling of the string parser (`recur` continues
after the consumed escape). -/
def parseEscStep (recur : List Char → Option (List Char × List Char)) :
    List Char → Option (List Char × List Char)
  | [] => none
  | e :: rest2 =>
    if e = '"' then (recur rest2).map (fun p => ('"' :: p.1, p.2))
    else if e = '\\' then (recur rest2).map (fun p => ('\\' :: p.1, p.2))
    else if e = 'b' then (recur rest2).map (fun p => (Char.ofNat 8 :: p.1, p.2))
    else if e = 't' then (recur rest2).map (fun p => (Char.ofNat 9 :: p.1, p.2))
    else if e = 'n' then (recur rest2).map (fun p => (Char.ofNat 10 :: p.1, p.2))
    else if e = 'f' then (recur rest2).map (fun p => (Char.ofNat 12 :: p.1, p.2))
    else if e = 'r' then (recur rest2).map (fun p => (Char.ofNat 13 :: p.1, p.2))
    else if e = 'u' then
      match rest2 with
      | h1 :: h2 :: h3 :: h4 :: rest3 =>
        match hexVal h1, hexVal h2, hexVal h3, hexVal h4 with
        | some a, some b, some c2, some d =>
          (recur rest3).map
            (fun p => (Char.ofNat (((a * 16 + b) * 16 + c2) * 16 + d) :: p.1, p.2))
        | _, _, _, _ => none
      | _ => none
    else none

/-- Parse the body of a JSON string literal after the opening quote, up to
and including the closing quote, undoing `escapeChar`. The fuel bounds the
number of produced characters. -/
def parseStringBody : Nat → List Char → Option (List Char × List Char)
  | 0, _ => none
  | _, [] => none
  | fuel+1, c :: rest =>
    if c = '"' then some ([], rest)
    else if c = '\\' then parseEscStep (parseStringBody fuel) rest
    else (parseStringBody fuel rest).map (fun p => (c :: p.1, p.2))

/-- Parse the `null` keyword after its leading `n`. -/
def parseNull : List Char → Option (MiniJson × List Char)
  | 'u' :: 'l' :: 'l' :: r => some (.null, r)
  | _ => none

/-- Parse the `true` keyword after its leading `t`. -/
def parseTrue : List Char → Option (MiniJson × List Char)
  | 'r' :: 'u' :: 'e' :: r => some (.bool true, r)
  | _ => none

/-- Parse the `false` keyword after its leading `f`. -/
def parseFalse : List Char → Option (MiniJson × List Char)
  | 'a' :: 'l' :: 's' :: 'e' :: r => some (.bool false, r)
  | _ => none

/-- Parse a number at the head of the input. -/
def parseNum (s : List Char) : Option (MiniJson × List Char) :=
  match parseIntChars s with
  | some (n, r) => some (.num n, r)
  | none => none

/-- Parse an array body after the opening bracket (`pv` parses one value,
`pat` the `,value]` continuation). -/
def parseArrBody (pv : List Char → Option (MiniJson × List Char))
    (pat : List Char → Option (List MiniJson × List Char)) (s : List Char) :
    Option (MiniJson × List Char) :=
  if s.head? = some ']' then some (.arr [], s.tail)
  else
    match pv s with
    | some (v, r2) =>
      match pat r2 with
      | some (vs, r3) => some (.arr (v :: vs), r3)
      | none => none
    | none => none

/-- Parse `,value` array continuations (`pv` one value, `pat` the rest). -/
def parseArrStep (pv : List Char → Option (MiniJson × List Char))
    (pat : List Char → Option (List MiniJson × List Char)) (r : List Char) :
    Option (List MiniJson × List Char) :=
  match pv r with
  | some (v, r2) =>
    match pat r2 with
    | some (vs, r3) => some (v :: vs, r3)
    | none => none
  | none => none

/-- Parse one `"key":value` field body (`psb` parses the key after its
opening quote, `pv` the value). -/
def parseFieldStep (psb : List Char → Option (List Char × List Char))
    (pv : List Char → Option (MiniJson × List Char)) (r : List Char) :
    Option ((List Char × MiniJson) × List Char) :=
  match psb r with
  | some (k, r2) =>
    match r2 with
    | ':' :: r3 => (pv r3).map (fun p => ((k, p.1), p.2))
    | _ => none
  | none => none

/-- Parse an object body after the opening brace (`pf` parses one field,
`pot` the `,field` continuation up to the closing brace). -/
def parseObjBody (pf : List Char → Option ((List Char × MiniJson) × List Char))
    (pot : List Char → Option (List (List Char × MiniJson) × List Char))
    (s : List Char) : Option (MiniJson × List Char) :=
  if s.head? = some rbrace then some (.obj [], s.tail)
  else
    match pf s with
    | some (kv, r2) =>
      match pot r2 with
      | some (fs, r3) => some (.obj (kv :: fs), r3)
      | none => none
    | none => none

/-- Parse a `,field` object continuation (`pf` one field, `pot` the
rest). -/
def parseObjStep (pf : List Char → Option ((List Char × MiniJson) × List Char))
    (pot : List Char → Option (List (List Char × MiniJson) × List Char))
    (r : List Char) : Option (List (List Char × MiniJson) × List Char) :=
  match pf r with
  | some (kv, r2) =>
    match pot r2 with
    | some (fs, r3) => some (kv :: fs, r3)
    | none => none
  | none => none

mutual

/-- JSON value parser (models the JS builtin `JSON.parse` the client
applies to the `data:` line, on the whitespace-free grammar that
`JSON.stringify` emits). The fuel bounds the recursion depth. -/
def parseValue : Nat → List Char → Option (MiniJson × List Char)
  | 0, _ => none
  | fuel+1, s =>
    match s with
    | [] => none
    | c :: rest =>
      if c = 'n' then parseNull rest
      else if c = 't' then parseTrue rest
      else if c = 'f' then parseFalse rest
      else if c = '"' then (parseStringBody (fuel + 1) rest).map (fun p => (.str p.1, p.2))
      else if c = '[' then parseArrBody (parseValue fuel) (parseArrTail fuel) rest
      else if c = lbrace then parseObjBody (parseField fuel) (parseObjTail fuel) rest
      else parseNum (c :: rest)

/-- Parse `,value` continuations of an array until `]`. -/
def parseArrTail : Nat → List Char → Option (List MiniJson × List Char)
  | 0, _ => none
  | fuel+1, s =>
    match s with
    | ']' :: r => some ([], r)
    | ',' :: r => parseArrStep (parseValue fuel) (parseArrTail fuel) r
    | _ => none

/-- Parse one `"key":value` object field. -/
def parseField : Nat → List Char → Option ((List Char × MiniJson) × List Char)
  | 0, _ => none
  | fuel+1, s =>
    match s with
    | '"' :: r => parseFieldStep (parseStringBody (fuel + 1)) (parseValue fuel) r
    | _ => none

/-- Parse `,"key":value` continuations of an object until the closing
brace. -/
def parseObjTail : Nat → List Char → Option (List (List Char × MiniJson) × List Char)
  | 0, _ => none
  | fuel+1, s =>
    if s.head? = some rbrace then some ([], s.tail)
    else
      match s with
      | ',' :: r => parseObjStep (parseField fuel) (parseObjTail fuel) r
      | _ => none

end

/-- No leading decimal digit: what the number parser needs of the input
that follows a serialized value (separators, closers, or nothing). -/
def SafeHead (rest : List Char) : Prop :=
  ∀ c, rest.head? = some c → isDigitChar c = false

/-- `JSON.parse` of a whole `data:` payload: parse one value and require
the input to be exactly consumed. -/
def jsonParseFull (s : List Char) : Option MiniJson :=
  match parseValue (s.length + 1) s with
  | some (v, []) => some v
  | _ => none

/-- `sseChunk` of `route.ts`:
`event: $\x7bevent\x7d\ndata: $\x7bdata\x7d\n\n` as a character list. -/
def sseChunkL (event data : List Char) : List Char :=
  "event: ".toList ++ event ++ '\n' :: ("data: ".toList ++ data ++ ['\n', '\n'])

/-- The frame content before the blank-line delimiter. -/
def rawFrame (event data : List Char) : List Char :=
  "event: ".toList ++ event ++ '\n' :: ("data: ".toList ++ data)

/-- Split a buffer at the first `"\n\n"` occurrence
(`buffer.indexOf("\n\n")` / `slice` in `chat-store.ts`). -/
def splitOnce : List Char → Option (List Char × List Char)
  | [] => none
  | [_] => none
  | c :: d :: rest =>
    if c = '\n' ∧ d = '\n' then some ([], rest)
    else (splitOnce (d :: rest)).map (fun p => (c :: p.1, p.2))

/-- The client's inner `while` loop: greedily extract all complete frames
from the buffer, returning them with the remaining buffer. The fuel
bounds the number of frames (each extraction consumes two delimiter
characters). -/
def chopAll : Nat → List Char → List (List Char) × List Char
  | 0, s => ([], s)
  | fuel+1, s =>
    match splitOnce s with
    | none => ([], s)
    | some (raw, rest) =>
      ((raw :: (chopAll fuel rest).1), (chopAll fuel rest).2)

/-- One `reader.read()` step: append the chunk to the buffer and extract
all complete frames. -/
def feedChunk (st : List (List Char) × List Char) (c : List Char) :
    List (List Char) × List Char :=
  (st.1 ++ (chopAll ((st.2 ++ c).length + 1) (st.2 ++ c)).1,
    (chopAll ((st.2 ++ c).length + 1) (st.2 ++ c)).2)

/-- The client's read loop over all chunks, starting from an empty
buffer. -/
def runReader (chunks : List (List Char)) : List (List Char) × List Char :=
  chunks.foldl feedChunk ([], [])

/-- JS `raw.split("\n")`. -/
def splitLines : List Char → List (List Char)
  | [] => [[]]
  | c :: r =>
    if c = '\n' then [] :: splitLines r
    else
      match splitLines r with
      | [] => [[c]]
      | l :: ls => (c :: l) :: ls

/-- The client's per-frame parse: find the `event:` and `data:` lines,
strip the prefixes (default event name `"message"`, no data line means no
payload). -/
def parseFrame (raw : List Char) : List Char × Option (List Char) :=
  ((((splitLines raw).find? (fun l => List.isPrefixOf "event: ".toList l)).map
      (fun l => l.drop 7)).getD "message".toList,
    ((splitLines raw).find? (fun l => List.isPrefixOf "data: ".toList l)).map
      (fun l => l.drop 6))

/-- The event name and parsed JSON payload the client recovers from each
complete frame of the byte stream. -/
def clientEvents (chunks : List (List Char)) : List (List Char × Option MiniJson) :=
  (runReader chunks).1.map (fun raw =>
    ((parseFrame raw).1, (parseFrame raw).2.bind jsonParseFull))

/-- Whether a buffer can be safely followed by a fresh `"\n\n"` delimiter
without creating an earlier one: no two consecutive newlines inside, and it
does not end with a newline. -/
def cleanBuf : List Char → Bool
  | [] => true
  | c :: r =>
    if c = '\n' then
      match r with
      | [] => false
      | d :: _ => if d = '\n' then false else cleanBuf r
    else cleanBuf r

/-- The saturated frame chopper: `chopAll` with enough fuel to extract
every complete frame (what `feedChunk` applies to the buffer). -/
def satChop (s : List Char) : List (List Char) × List Char :=
  chopAll (s.length + 1) s

/-! ### Basic facts about `slideWindow` -/

theorem slideWindow_cons_pos (cost : ChatMessage → Nat) (target : ℤ)
    (sum : Nat) (m : ChatMessage) (rest : List ChatMessage)
    (h : ((sum + cost m : Nat) : ℤ) > target) :
    slideWindow cost target sum (m :: rest) = ([], sum) := by
  simp only [slideWindow, if_pos h]

theorem slideWindow_cons_neg (cost : ChatMessage → Nat) (target : ℤ)
    (sum : Nat) (m : ChatMessage) (rest : List ChatMessage)
    (h : ¬ ((sum + cost m : Nat) : ℤ) > target) :
    slideWindow cost target sum (m :: rest) =
      ((m :: (slideWindow cost target (sum + cost m) rest).1),
        (slideWindow cost target (sum + cost m) rest).2) := by
  simp only [slideWindow, if_neg h]

theorem slideWindow_fst_take (cost : ChatMessage → Nat) (target : ℤ) :
    ∀ (l : List ChatMessage) (sum : Nat),
      ∃ k ≤ l.length, (slideWindow cost target sum l).1 = l.take k := by
  intro l
  induction l with
  | nil => intro sum; exact ⟨0, by simp, by simp [slideWindow]⟩
  | cons m rest ih =>
    intro sum
    by_cases h : ((sum + cost m : Nat) : ℤ) > target
    · exact ⟨0, by simp, by rw [slideWindow_cons_pos cost target sum m rest h]; rfl⟩
    · obtain ⟨k, hk, heq⟩ := ih (sum + cost m)
      refine ⟨k + 1, by simpa using Nat.succ_le_succ hk, ?_⟩
      rw [slideWindow_cons_neg cost target sum m rest h]
      simp [heq]

theorem slideWindow_snd (cost : ChatMessage → Nat) (target : ℤ) :
    ∀ (l : List ChatMessage) (sum : Nat),
      (slideWindow cost target sum l).2 =
        sum + (((slideWindow cost target sum l).1).map cost).sum := by
  intro l
  induction l with
  | nil => intro sum; simp [slideWindow]
  | cons m rest ih =>
    intro sum
    by_cases h : ((sum + cost m : Nat) : ℤ) > target
    · rw [slideWindow_cons_pos cost target sum m rest h]; simp
    · rw [slideWindow_cons_neg cost target sum m rest h]
      simp only [List.map_cons, List.sum_cons]
      rw [ih (sum + cost m)]
      omega

theorem slideWindow_stop (cost : ChatMessage → Nat) (target : ℤ) :
    ∀ (l : List ChatMessage) (sum : Nat),
      (slideWindow cost target sum l).1.length < l.length →
      ((sum + (((l.take ((slideWindow cost target sum l).1.length + 1)).map cost).sum : Nat) : ℤ)
        > target) := by
  intro l
  induction l with
  | nil => intro sum h; simp [slideWindow] at h
  | cons m rest ih =>
    intro sum h
    by_cases hc : ((sum + cost m : Nat) : ℤ) > target
    · rw [slideWindow_cons_pos cost target sum m rest hc] at h ⊢
      simpa using hc
    · rw [slideWindow_cons_neg cost target sum m rest hc] at h ⊢
      simp only [List.length_cons, List.take_succ_cons, List.map_cons, List.sum_cons] at h ⊢
      have hlen : (slideWindow cost target (sum + cost m) rest).1.length < rest.length := by
        omega
      have hstep := ih (sum + cost m) hlen
      omega

theorem slideWindow_within (cost : ChatMessage → Nat) (target : ℤ) :
    ∀ (l : List ChatMessage) (sum : Nat) (j : Nat),
      j < (slideWindow cost target sum l).1.length →
      ((sum + (((l.take (j + 1)).map cost).sum : Nat) : ℤ) ≤ target) := by
  intro l
  induction l with
  | nil => intro sum j h; simp [slideWindow] at h
  | cons m rest ih =>
    intro sum j h
    by_cases hc : ((sum + cost m : Nat) : ℤ) > target
    · rw [slideWindow_cons_pos cost target sum m rest hc] at h
      simp at h
    · rw [slideWindow_cons_neg cost target sum m rest hc] at h
      cases j with
      | zero =>
        simp only [List.take_succ_cons, List.take_zero, List.map_cons, List.map_nil,
          List.sum_cons, List.sum_nil]
        omega
      | succ j =>
        have hj : j < (slideWindow cost target (sum + cost m) rest).1.length := by
          simpa using h
        have hstep := ih (sum + cost m) j hj
        simp only [List.take_succ_cons, List.map_cons, List.sum_cons]
        omega

theorem slideWindow_full (cost : ChatMessage → Nat) (target : ℤ)
    (l : List ChatMessage) (sum : Nat)
    (h : ((sum + ((l.map cost).sum : Nat) : ℤ) ≤ target)) :
    (slideWindow cost target sum l).1 = l := by
  induction l generalizing sum with
  | nil => simp [slideWindow]
  | cons m rest ih =>
    simp only [List.map_cons, List.sum_cons] at h
    have hc : ¬ ((sum + cost m : Nat) : ℤ) > target := by omega
    have hrest := ih (sum + cost m) (by omega)
    rw [slideWindow_cons_neg cost target sum m rest hc]
    simp [hrest]

/-! ### Bridging suffix sums and reversed prefixes -/

theorem sum_map_take_reverse (c : ChatMessage → Nat) (l : List ChatMessage) (j : Nat) :
    ((l.reverse.take j).map c).sum = ((l.drop (l.length - j)).map c).sum := by
  rw [List.take_reverse, List.map_reverse, List.sum_reverse]

theorem sum_map_reverse (c : ChatMessage → Nat) (l : List ChatMessage) :
    ((l.reverse).map c).sum = (l.map c).sum := by
  rw [List.map_reverse, List.sum_reverse]

/-- C3, amended: `buildPrompt` includes the system message (last, after the
selected history, because the JS loop `unshift`s history in front of the
already-pushed system message); it walks the history from most recent to
oldest accumulating serialized token costs, stops the instant adding a
message would exceed the target, keeps the selected history chronological
(a suffix of the input history), and when the system message alone exceeds
the target the result is the system message alone with no failure. -/
theorem buildPrompt_spec (model systemPrompt : String) (history : List ChatMessage)
    (maxContextTokens : Nat) (ratio : ℚ) :
    ∃ k ≤ history.length,
      (buildPrompt model systemPrompt history maxContextTokens ratio).messages =
        history.drop (history.length - k) ++ [⟨.system, systemPrompt⟩] ∧
      (buildPrompt model systemPrompt history maxContextTokens ratio).promptTokens =
        pushAndMeasure model ⟨.system, systemPrompt⟩ +
          ((history.drop (history.length - k)).map (pushAndMeasure model)).sum ∧
      (∀ j < k,
        ((pushAndMeasure model ⟨.system, systemPrompt⟩ +
          ((history.drop (history.length - (j + 1))).map (pushAndMeasure model)).sum : Nat) : ℤ)
          ≤ bpTarget maxContextTokens ratio) ∧
      (k < history.length →
        ((pushAndMeasure model ⟨.system, systemPrompt⟩ +
          ((history.drop (history.length - (k + 1))).map (pushAndMeasure model)).sum : Nat) : ℤ)
          > bpTarget maxContextTokens ratio) ∧
      (((pushAndMeasure model ⟨.system, systemPrompt⟩ : Nat) : ℤ) >
          bpTarget maxContextTokens ratio →
        (buildPrompt model systemPrompt history maxContextTokens ratio).messages =
          [⟨.system, systemPrompt⟩]) := by
  obtain ⟨k, hk, heq⟩ := slideWindow_fst_take (pushAndMeasure model)
    (bpTarget maxContextTokens ratio)
    history.reverse (pushAndMeasure model ⟨.system, systemPrompt⟩)
  rw [List.length_reverse] at hk
  have hlen : (slideWindow (pushAndMeasure model) (bpTarget maxContextTokens ratio)
      (pushAndMeasure model ⟨.system, systemPrompt⟩) history.reverse).1.length = k := by
    rw [heq, List.length_take, List.length_reverse]
    omega
  have hmsg : (buildPrompt model systemPrompt history maxContextTokens ratio).messages =
      history.drop (history.length - k) ++ [⟨.system, systemPrompt⟩] := by
    show ((slideWindow (pushAndMeasure model) (bpTarget maxContextTokens ratio)
      (pushAndMeasure model ⟨.system, systemPrompt⟩) history.reverse).1).reverse ++ _ = _
    rw [heq, List.take_reverse, List.reverse_reverse]
  refine ⟨k, hk, hmsg, ?_, ?_, ?_, ?_⟩
  · show (slideWindow (pushAndMeasure model) (bpTarget maxContextTokens ratio)
      (pushAndMeasure model ⟨.system, systemPrompt⟩) history.reverse).2 = _
    rw [slideWindow_snd, heq, ← sum_map_take_reverse (pushAndMeasure model) history k]
  · intro j hj
    have hw := slideWindow_within (pushAndMeasure model) (bpTarget maxContextTokens ratio)
      history.reverse (pushAndMeasure model ⟨.system, systemPrompt⟩) j (by omega)
    rwa [sum_map_take_reverse (pushAndMeasure model) history (j + 1)] at hw
  · intro hklt
    have hs := slideWindow_stop (pushAndMeasure model) (bpTarget maxContextTokens ratio)
      history.reverse (pushAndMeasure model ⟨.system, systemPrompt⟩)
      (by rw [hlen, List.length_reverse]; exact hklt)
    rw [hlen, sum_map_take_reverse (pushAndMeasure model) history (k + 1)] at hs
    exact hs
  · intro hbig
    have hk0 : k = 0 := by
      by_contra h0
      have hw := slideWindow_within (pushAndMeasure model) (bpTarget maxContextTokens ratio)
        history.reverse (pushAndMeasure model ⟨.system, systemPrompt⟩) 0 (by omega)
      simp only [Nat.zero_add] at hw
      omega
    rw [hmsg, hk0]
    simp

/-- Closed instantiation of `buildPrompt_spec` at a concrete input. -/
theorem buildPrompt_spec_witness :
    ∃ k ≤ ([⟨WireRole.user, "hi"⟩] : List ChatMessage).length,
      (buildPrompt "gpt-4o-mini" "s" [⟨.user, "hi"⟩] 1000 (1/10)).messages =
        ([⟨WireRole.user, "hi"⟩] : List ChatMessage).drop (1 - k) ++ [⟨.system, "s"⟩] ∧
      (buildPrompt "gpt-4o-mini" "s" [⟨.user, "hi"⟩] 1000 (1/10)).promptTokens =
        pushAndMeasure "gpt-4o-mini" ⟨.system, "s"⟩ +
          ((([⟨WireRole.user, "hi"⟩] : List ChatMessage).drop (1 - k)).map
            (pushAndMeasure "gpt-4o-mini")).sum ∧
      (∀ j < k,
        ((pushAndMeasure "gpt-4o-mini" ⟨.system, "s"⟩ +
          ((([⟨WireRole.user, "hi"⟩] : List ChatMessage).drop (1 - (j + 1))).map
            (pushAndMeasure "gpt-4o-mini")).sum : Nat) : ℤ) ≤ bpTarget 1000 (1/10)) ∧
      (k < ([⟨WireRole.user, "hi"⟩] : List ChatMessage).length →
        ((pushAndMeasure "gpt-4o-mini" ⟨.system, "s"⟩ +
          ((([⟨WireRole.user, "hi"⟩] : List ChatMessage).drop (1 - (k + 1))).map
            (pushAndMeasure "gpt-4o-mini")).sum : Nat) : ℤ) > bpTarget 1000 (1/10)) ∧
      (((pushAndMeasure "gpt-4o-mini" ⟨.system, "s"⟩ : Nat) : ℤ) > bpTarget 1000 (1/10) →
        (buildPrompt "gpt-4o-mini" "s" [⟨.user, "hi"⟩] 1000 (1/10)).messages =
          [⟨.system, "s"⟩]) :=
  buildPrompt_spec "gpt-4o-mini" "s" [⟨.user, "hi"⟩] 1000 (1/10)

/-- C3, counterexample: with a short history well under budget, the returned
selection puts the history message FIRST and the system message LAST, so
the claim "the system message is first in the returned selection" is false
on the code. -/
theorem bpHeadroom_1000 : bpHeadroom 1000 (1/10) = 100 := by
  have h : ((1000 : Nat) : ℚ) * (1/10) = ((100 : ℤ) : ℚ) := by norm_num
  rw [bpHeadroom, h, Int.floor_intCast]

theorem bpTarget_1000 : bpTarget 1000 (1/10) = 900 := by
  rw [bpTarget, bpHeadroom_1000]
  norm_num

theorem buildPrompt_system_last_cex :
    (buildPrompt "gpt-4o-mini" "s" [⟨.user, "hi"⟩] 1000 (1/10)).messages =
      [⟨.user, "hi"⟩, ⟨.system, "s"⟩] ∧
    (buildPrompt "gpt-4o-mini" "s" [⟨.user, "hi"⟩] 1000 (1/10)).messages.head? ≠
      some ⟨.system, "s"⟩ := by
  constructor
  · simp only [buildPrompt, bpTarget_1000]
    decide
  · simp only [buildPrompt, bpTarget_1000]
    decide

/-- C6: when the whole history together with the system message fits under
the target budget, `buildPrompt` returns the full history unmodified and in
chronological order (followed by the system message). -/
theorem buildPrompt_full_history (model systemPrompt : String)
    (history : List ChatMessage) (maxContextTokens : Nat) (ratio : ℚ)
    (h : ((pushAndMeasure model ⟨.system, systemPrompt⟩ +
        (history.map (pushAndMeasure model)).sum : Nat) : ℤ) ≤
        bpTarget maxContextTokens ratio) :
    (buildPrompt model systemPrompt history maxContextTokens ratio).messages =
      history ++ [⟨.system, systemPrompt⟩] := by
  have hfull := slideWindow_full (pushAndMeasure model) (bpTarget maxContextTokens ratio)
    history.reverse (pushAndMeasure model ⟨.system, systemPrompt⟩)
    (by rw [sum_map_reverse]; exact h)
  show ((slideWindow (pushAndMeasure model) (bpTarget maxContextTokens ratio)
      (pushAndMeasure model ⟨.system, systemPrompt⟩) history.reverse).1).reverse ++ _ = _
  rw [hfull, List.reverse_reverse]

/-- Closed instantiation of `buildPrompt_full_history` at a concrete input. -/
theorem buildPrompt_full_history_witness :
    (buildPrompt "gpt-4o-mini" "s" [⟨.user, "hi"⟩, ⟨.assistant, "yo"⟩] 1000 (1/10)).messages =
      [⟨.user, "hi"⟩, ⟨.assistant, "yo"⟩] ++ [⟨.system, "s"⟩] :=
  buildPrompt_full_history "gpt-4o-mini" "s" [⟨.user, "hi"⟩, ⟨.assistant, "yo"⟩] 1000 (1/10)
    (by rw [bpTarget_1000]; decide)

/-! ### C10: `getModelInfo` totality -/

/-- C10: `getModelInfo` is total and never fails: for an id present in
`MODELS` it returns that model entry (the one whose id matches), and for
any other id it falls back to the first entry (`gpt-4o-mini`), so the
budget computation always has defined context and completion limits. -/
theorem getModelInfo_total (id : String) :
    getModelInfo id ∈ MODELS ∧
    (id ∈ MODELS.map ModelInfo.id → (getModelInfo id).id = id) ∧
    (id ∉ MODELS.map ModelInfo.id →
      getModelInfo id = ⟨"gpt-4o-mini", "GPT-4o mini", 128000, 16384, 1/10⟩) := by
  cases hf : MODELS.find? (fun m => m.id = id) with
  | none =>
    have hnone := List.find?_eq_none.mp hf
    have hgd : getModelInfo id = ⟨"gpt-4o-mini", "GPT-4o mini", 128000, 16384, 1/10⟩ := by
      unfold getModelInfo
      rw [hf]
      rfl
    refine ⟨?_, ?_, fun _ => hgd⟩
    · rw [hgd]
      show _ ∈ MODELS
      unfold MODELS
      exact List.mem_cons_self _ _
    · intro hmem
      obtain ⟨m, hm, hid⟩ := List.mem_map.mp hmem
      exact absurd (by simp [hid]) (hnone m hm)
  | some m =>
    have hgd : getModelInfo id = m := by
      unfold getModelInfo
      rw [hf]
      rfl
    have hmem : m ∈ MODELS := List.mem_of_find?_eq_some hf
    have hid : m.id = id := by simpa using List.find?_some hf
    refine ⟨by rw [hgd]; exact hmem, fun _ => by rw [hgd]; exact hid, ?_⟩
    intro hno
    exact absurd (List.mem_map.mpr ⟨m, hmem, hid⟩) hno

/-- Closed instantiation of `getModelInfo_total` at hit and miss inputs. -/
theorem getModelInfo_total_witness :
    (getModelInfo "gpt-4o" ∈ MODELS ∧
      ("gpt-4o" ∈ MODELS.map ModelInfo.id → (getModelInfo "gpt-4o").id = "gpt-4o") ∧
      ("gpt-4o" ∉ MODELS.map ModelInfo.id →
        getModelInfo "gpt-4o" = ⟨"gpt-4o-mini", "GPT-4o mini", 128000, 16384, 1/10⟩)) ∧
    (getModelInfo "nope" ∈ MODELS ∧
      ("nope" ∈ MODELS.map ModelInfo.id → (getModelInfo "nope").id = "nope") ∧
      ("nope" ∉ MODELS.map ModelInfo.id →
        getModelInfo "nope" = ⟨"gpt-4o-mini", "GPT-4o mini", 128000, 16384, 1/10⟩)) :=
  ⟨getModelInfo_total "gpt-4o", getModelInfo_total "nope"⟩

/-! ### C2: terminal handling of stream failures -/

/-- C2: when the streaming call fails with the abort sentinel
(`name = "AbortError"`), the accumulated content is persisted with status
INTERRUPTED and finish reason `"user_cancelled"` and an `end` event with
status `"interrupted"` is emitted; on any other failure the accumulated
content is persisted with status ERROR and finish reason `"error"` and an
`error` event with a best-effort message is emitted; in neither case does
the row remain STREAMING. -/
theorem handleStreamError_spec (errName errMessage : Option String)
    (accumulated : String) (completionTokens : Nat) (row : MsgRow) :
    (errName = some "AbortError" →
      (handleStreamError errName errMessage accumulated completionTokens row).1.status
          = .INTERRUPTED ∧
      (handleStreamError errName errMessage accumulated completionTokens row).1.content
          = accumulated ∧
      (handleStreamError errName errMessage accumulated completionTokens row).1.finishReason
          = some "user_cancelled" ∧
      (handleStreamError errName errMessage accumulated completionTokens row).2
          = [.endEv "interrupted"]) ∧
    (errName ≠ some "AbortError" →
      (handleStreamError errName errMessage accumulated completionTokens row).1.status
          = .ERROR ∧
      (handleStreamError errName errMessage accumulated completionTokens row).1.content
          = accumulated ∧
      (handleStreamError errName errMessage accumulated completionTokens row).1.finishReason
          = some "error" ∧
      (handleStreamError errName errMessage accumulated completionTokens row).2
          = [.errorEv (jsOrDefault errMessage "Unknown error occurred")]) ∧
    (handleStreamError errName errMessage accumulated completionTokens row).1.status
        ≠ .STREAMING := by
  by_cases h : errName = some "AbortError" <;> simp [handleStreamError, h]

/-- Closed instantiation of `handleStreamError_spec` on both branches. -/
theorem handleStreamError_spec_witness :
    ((handleStreamError (some "AbortError") none "partial answer" 3
        ⟨1, .ASSISTANT, "", .STREAMING, some 0, 0, some "gpt-4o-mini", some 5, none, none⟩).1.status
      = .INTERRUPTED) ∧
    ((handleStreamError (some "TypeError") (some "boom") "partial answer" 3
        ⟨1, .ASSISTANT, "", .STREAMING, some 0, 0, some "gpt-4o-mini", some 5, none, none⟩).1.status
      = .ERROR) :=
  ⟨((handleStreamError_spec (some "AbortError") none "partial answer" 3
      ⟨1, .ASSISTANT, "", .STREAMING, some 0, 0, some "gpt-4o-mini", some 5, none, none⟩).1
      (by decide)).1,
   (((handleStreamError_spec (some "TypeError") (some "boom") "partial answer" 3
      ⟨1, .ASSISTANT, "", .STREAMING, some 0, 0, some "gpt-4o-mini", some 5, none, none⟩).2).1
      (by decide)).1⟩

/-! ### C7: throttled checkpoints and fault containment -/

theorem foldl_append_str (l : List String) :
    ∀ (a : String), l.foldl (fun x y => x ++ y) a = a ++ String.join l := by
  induction l with
  | nil => intro a; simp [String.join, String.append_empty]
  | cons b t ih =>
    intro a
    have hj : String.join (b :: t) = b ++ String.join t := by
      show (b :: t).foldl (fun x y => x ++ y) "" = _
      rw [List.foldl_cons, ih, String.empty_append]
    rw [List.foldl_cons, ih, hj, String.append_assoc]

theorem join_append_str (l1 l2 : List String) :
    String.join (l1 ++ l2) = String.join l1 ++ String.join l2 := by
  show (l1 ++ l2).foldl (fun x y => x ++ y) "" = _
  rw [List.foldl_append, foldl_append_str]
  rfl

theorem join_singleton_str (d : String) : String.join [d] = d := by
  show [d].foldl (fun x y => x ++ y) "" = d
  rw [List.foldl_cons, List.foldl_nil, String.empty_append]

theorem expectedCheckpoints_snoc (ds : List String) (d : String) :
    expectedCheckpoints (ds ++ [d]) =
      expectedCheckpoints ds ++
        (if (ds.length + 1) % SAVE_EVERY_N_TOKENS = 0
          then [(String.join (ds ++ [d]), ds.length + 1)] else []) := by
  unfold expectedCheckpoints
  rw [List.length_append, List.length_singleton, List.range_succ, List.map_append,
    List.filter_append, List.map_append]
  congr 1
  · apply List.map_congr_left
    intro n hn
    have hx := List.mem_of_mem_filter hn
    obtain ⟨n0, hn0, rfl⟩ := List.mem_map.mp hx
    have hle : n0 + 1 ≤ ds.length := List.mem_range.mp hn0
    rw [List.take_append_of_le_length hle]
  · simp only [List.map_cons, List.map_nil]
    by_cases hm : (ds.length + 1) % SAVE_EVERY_N_TOKENS = 0
    · rw [List.filter_cons_of_pos (by simpa using hm), List.filter_nil, if_pos hm]
      simp only [List.map_cons, List.map_nil]
      rw [List.take_of_length_le (by simp)]
    · rw [List.filter_cons_of_neg (by simpa using hm), List.filter_nil, if_neg hm]
      rfl

theorem processChunk_obs (f g : Nat → Bool) (c : StreamChunk) (s1 s2 : LoopState)
    (h : obs s1 = obs s2) : obs (processChunk f s1 c) = obs (processChunk g s2 c) := by
  obtain ⟨a1, t1, e1, d1, dt1, sa1⟩ := s1
  obtain ⟨a2, t2, e2, d2, dt2, sa2⟩ := s2
  simp only [obs, Prod.mk.injEq] at h
  obtain ⟨ha, ht, he, hs⟩ := h
  subst ha; subst ht; subst he; subst hs
  unfold processChunk
  cases c.finishReason <;>
    by_cases hd : c.delta = "" <;>
      simp only [obs, hd, if_pos, if_neg, reduceIte] <;>
        split_ifs <;> rfl

theorem runStreamLoop_obs (f g : Nat → Bool) (chunks : List StreamChunk) :
    ∀ (s1 s2 : LoopState), obs s1 = obs s2 →
      obs (runStreamLoop f chunks s1) = obs (runStreamLoop g chunks s2) := by
  induction chunks with
  | nil => intro s1 s2 h; exact h
  | cons c rest ih =>
    intro s1 s2 h
    unfold runStreamLoop
    rw [List.foldl_cons, List.foldl_cons]
    exact ih _ _ (processChunk_obs f g c s1 s2 h)

theorem runStreamLoop_char (f : Nat → Bool) (chunks : List StreamChunk)
    (dbC : String) (dbT : Option Nat) :
    (runStreamLoop f chunks (initLoopState dbC dbT)).accumulated =
        String.join (contentFragments chunks) ∧
    (runStreamLoop f chunks (initLoopState dbC dbT)).completionTokens =
        (contentFragments chunks).length ∧
    (runStreamLoop f chunks (initLoopState dbC dbT)).saveAttempts =
        expectedCheckpoints (contentFragments chunks) := by
  induction chunks using List.reverseRecOn with
  | nil =>
    refine ⟨rfl, rfl, rfl⟩
  | append_singleton chs c ih =>
    obtain ⟨h1, h2, h3⟩ := ih
    have hrun : runStreamLoop f (chs ++ [c]) (initLoopState dbC dbT) =
        processChunk f (runStreamLoop f chs (initLoopState dbC dbT)) c := by
      unfold runStreamLoop
      rw [List.foldl_append, List.foldl_cons, List.foldl_nil]
    by_cases hd : c.delta = ""
    · have hfr : contentFragments (chs ++ [c]) = contentFragments chs := by
        unfold contentFragments
        rw [List.map_append, List.filter_append]
        simp [hd]
      rw [hrun, hfr]
      unfold processChunk
      cases c.finishReason <;> simp [hd, h1, h2, h3]
    · have hfr : contentFragments (chs ++ [c]) = contentFragments chs ++ [c.delta] := by
        unfold contentFragments
        rw [List.map_append, List.filter_append]
        simp [hd]
      rw [hrun, hfr]
      unfold processChunk
      rw [expectedCheckpoints_snoc]
      cases c.finishReason <;>
        by_cases hm : ((contentFragments chs).length + 1) % SAVE_EVERY_N_TOKENS = 0 <;>
          by_cases hf : f ((contentFragments chs).length + 1) <;>
            simp [hd, h1, h2, h3, hm, hf, join_append_str, join_singleton_str]

/-- C7: the loop attempts a checkpoint write of the accumulated content and
running completion-token count exactly on every 5th content fragment, and a
checkpoint failure is swallowed: the emitted events, the accumulator, the
attempted checkpoints and the final COMPLETE persist are identical whatever
subset of checkpoint writes fails. -/
theorem streamLoop_checkpoint_spec (f g : Nat → Bool) (chunks : List StreamChunk)
    (dbC : String) (dbT : Option Nat) (row : MsgRow) :
    (runStreamLoop f chunks (initLoopState dbC dbT)).saveAttempts =
        expectedCheckpoints (contentFragments chunks) ∧
    (runStreamLoop f chunks (initLoopState dbC dbT)).accumulated =
        String.join (contentFragments chunks) ∧
    obs (runStreamLoop f chunks (initLoopState dbC dbT)) =
        obs (runStreamLoop g chunks (initLoopState dbC dbT)) ∧
    finalizeComplete (runStreamLoop f chunks (initLoopState dbC dbT)) row =
        finalizeComplete (runStreamLoop g chunks (initLoopState dbC dbT)) row := by
  obtain ⟨h1, h2, h3⟩ := runStreamLoop_char f chunks dbC dbT
  have hobs := runStreamLoop_obs f g chunks (initLoopState dbC dbT) (initLoopState dbC dbT) rfl
  refine ⟨h3, h1, hobs, ?_⟩
  have hacc : (runStreamLoop f chunks (initLoopState dbC dbT)).accumulated =
      (runStreamLoop g chunks (initLoopState dbC dbT)).accumulated :=
    congrArg (fun p => p.1) hobs
  have hct : (runStreamLoop f chunks (initLoopState dbC dbT)).completionTokens =
      (runStreamLoop g chunks (initLoopState dbC dbT)).completionTokens :=
    congrArg (fun p => p.2.1) hobs
  unfold finalizeComplete
  rw [hacc, hct]

/-! ### Setter projections -/

theorem registrySet_aborted (st : SrvState) (c : Nat) :
    (registrySet st c).aborted = st.aborted := rfl

theorem setMessages_aborted (st : SrvState) (m : List MsgRow) :
    (setMessages st m).aborted = st.aborted := rfl

theorem setConv_aborted (st : SrvState) (c : ConvRow) :
    (setConv st c).aborted = st.aborted := rfl

theorem registrySet_messages (st : SrvState) (c : Nat) :
    (registrySet st c).store.messages = st.store.messages := rfl

theorem setConv_messages (st : SrvState) (c : ConvRow) :
    (setConv st c).store.messages = st.store.messages := rfl

theorem setMessages_messages (st : SrvState) (m : List MsgRow) :
    (setMessages st m).store.messages = m := rfl

theorem registryStop_messages (st : SrvState) :
    (registryStop st).store.messages = st.store.messages := by
  unfold registryStop
  cases st.regEntry <;> rfl

theorem registryStop_aborted_of_entry (st : SrvState) (c : Nat)
    (h : st.regEntry = some c) : (registryStop st).aborted = c :: st.aborted := by
  unfold registryStop
  rw [h]

/-! ### C5: missing credential short-circuits before any persistence -/

/-- C5: when the upstream credential is absent, the generate endpoint
returns a single synchronous `error` event frame and performs no
persistence at all: the returned state is the input state, unchanged. -/
theorem postPreStream_no_api_key (convExists : Bool) (req : GenRequest)
    (nu na nc : Nat) (st : SrvState) :
    postPreStream false convExists req nu na nc st =
      (st, .errorResp "OpenAI API key not configured") := by
  unfold postPreStream
  rw [if_pos rfl]

/-! ### C1: per-conversation exclusivity of STREAMING rows -/

/-- C1, counterexample: a regeneration request opened while the previous
generation is still streaming cancels nothing (no controller is aborted)
and creates a second STREAMING assistant row, so two STREAMING rows
coexist. -/
theorem c1_two_streaming_cex :
    streamingCount (postPreStream true true c1RegenReq 2 3 101 c1InitState).1 = 2 ∧
    (postPreStream true true c1RegenReq 2 3 101 c1InitState).1.aborted = [] ∧
    c1InitState.regEntry = some 100 ∧
    streamingCount c1InitState = 1 := by
  refine ⟨rfl, rfl, rfl, rfl⟩

theorem userCreateStage_aborted_non_edit (req : GenRequest) (nu : Nat) (st : SrvState)
    (h : req.isRegeneration = true ∨ req.isEditedPrompt = false ∨
      (resolveParents req).2 = none) :
    (userCreateStage req nu st).1.aborted = st.aborted := by
  unfold userCreateStage
  by_cases hr : req.isRegeneration = true
  · rw [if_pos hr]
  · rw [if_neg hr]
    rcases h with hr2 | he | hu
    · exact absurd hr2 hr
    · cases hsc : (resolveParents req).2 <;> simp [setMessages, he]
    · rw [hu]
      simp [setMessages]

theorem userCreateStage_messages_non_edit (req : GenRequest) (nu : Nat) (st : SrvState)
    (h : req.isRegeneration = true ∨ req.isEditedPrompt = false ∨
      (resolveParents req).2 = none) :
    ∃ t, (userCreateStage req nu st).1.store.messages = st.store.messages ++ t := by
  unfold userCreateStage
  by_cases hr : req.isRegeneration = true
  · rw [if_pos hr]
    exact ⟨[], by simp⟩
  · rw [if_neg hr]
    rcases h with hr2 | he | hu
    · exact absurd hr2 hr
    · cases hsc : (resolveParents req).2 with
      | none =>
        refine ⟨[⟨nu, .USER, req.userMessage, .COMPLETE, lastNonUserId st.store.messages,
          0, none, none, none, none⟩], ?_⟩
        simp [setMessages]
      | some q =>
        refine ⟨[⟨nu, .USER, req.userMessage, .COMPLETE, some q,
          0, none, none, none, none⟩], ?_⟩
        simp [setMessages, he]
    · rw [hu]
      refine ⟨[⟨nu, .USER, req.userMessage, .COMPLETE, lastNonUserId st.store.messages,
        0, none, none, none, none⟩], ?_⟩
      simp [setMessages]

/-- C1, amended: the orchestrator cancels an active generation only on the
edited-prompt path; for any other request kind (new message or
regeneration) `streamRegistry.set` replaces the registry entry without
aborting it and no abort is performed, the existing rows (including any
STREAMING assistant row) are carried over unchanged, and a new STREAMING
assistant placeholder is appended — so two STREAMING assistant rows can
coexist. -/
theorem postPreStream_non_edit_no_cancel (req : GenRequest)
    (nu na nc : Nat) (st : SrvState)
    (h : req.isRegeneration = true ∨ req.isEditedPrompt = false ∨
      (resolveParents req).2 = none) :
    (postPreStream true true req nu na nc st).1.aborted = st.aborted ∧
    (∃ t, (postPreStream true true req nu na nc st).1.store.messages =
      st.store.messages ++ t) ∧
    (∃ m ∈ (postPreStream true true req nu na nc st).1.store.messages,
      m.messageId = na ∧ m.status = Status.STREAMING) := by
  obtain ⟨t0, ht0⟩ := userCreateStage_messages_non_edit req nu st h
  unfold postPreStream
  rw [if_neg (by decide), if_neg (by decide)]
  refine ⟨?_, ?_, ?_⟩
  · rw [registrySet_aborted, setMessages_aborted, setConv_aborted,
      userCreateStage_aborted_non_edit req nu st h]
  · rw [registrySet_messages, setMessages_messages, setConv_messages, ht0]
    exact ⟨_, by rw [List.append_assoc]⟩
  · rw [registrySet_messages, setMessages_messages]
    exact ⟨_, List.mem_append_right _ (List.mem_singleton_self _), rfl, rfl⟩

/-- Closed instantiation of `postPreStream_non_edit_no_cancel` at the C1
counterexample state. -/
theorem postPreStream_non_edit_no_cancel_witness :
    (postPreStream true true c1RegenReq 2 3 101 c1InitState).1.aborted =
        c1InitState.aborted ∧
    (∃ t, (postPreStream true true c1RegenReq 2 3 101 c1InitState).1.store.messages =
      c1InitState.store.messages ++ t) ∧
    (∃ m ∈ (postPreStream true true c1RegenReq 2 3 101 c1InitState).1.store.messages,
      m.messageId = 3 ∧ m.status = Status.STREAMING) :=
  postPreStream_non_edit_no_cancel c1RegenReq 2 3 101 c1InitState (Or.inl rfl)

/-! ### C4: the edited-prompt path -/

/-- C4: on an edited prompt with an edit-chain parent, the orchestrator
stops any active generation (the registered controller is aborted), marks
every STREAMING message whose parent is the prior user-message version as
INTERRUPTED with finish reason `"user_edited_prompt"`, and persists a new
USER message with status COMPLETE whose parent is the prior user message
id. -/
theorem postPreStream_edit_spec (req : GenRequest) (nu na nc : Nat)
    (st : SrvState) (p : Nat)
    (hreg : req.isRegeneration = false)
    (hedit : req.isEditedPrompt = true)
    (hump : req.userMessageParentId = some p) :
    (∀ c, st.regEntry = some c →
      c ∈ (postPreStream true true req nu na nc st).1.aborted) ∧
    (∀ m ∈ st.store.messages, m.parentId = some p → m.status = Status.STREAMING →
      ({ m with
          status := Status.INTERRUPTED
          finishReason := some "user_edited_prompt" } : MsgRow) ∈
        (postPreStream true true req nu na nc st).1.store.messages) ∧
    ((⟨nu, .USER, req.userMessage, .COMPLETE, some p, 0, none, none, none, none⟩ : MsgRow) ∈
      (postPreStream true true req nu na nc st).1.store.messages) := by
  have hump2 : (resolveParents req).2 = some p := by
    simp [resolveParents, hump]
  have hucs : userCreateStage req nu st =
      (setMessages
        (setMessages (registryStop st) (markInterrupted p (registryStop st).store.messages))
        ((setMessages (registryStop st)
            (markInterrupted p (registryStop st).store.messages)).store.messages ++
          [⟨nu, .USER, req.userMessage, .COMPLETE, some p, 0, none, none, none, none⟩]),
        some nu) := by
    unfold userCreateStage
    rw [if_neg (by simp [hreg]), hump2, hedit]
    simp
  unfold postPreStream
  rw [if_neg (by decide), if_neg (by decide)]
  rw [hucs]
  refine ⟨?_, ?_, ?_⟩
  · intro c hc
    rw [registrySet_aborted, setMessages_aborted, setConv_aborted, setMessages_aborted,
      setMessages_aborted, registryStop_aborted_of_entry st c hc]
    exact List.mem_cons_self _ _
  · intro m hm hpar hstr
    rw [registrySet_messages, setMessages_messages, setConv_messages, setMessages_messages,
      setMessages_messages, registryStop_messages]
    apply List.mem_append_left
    apply List.mem_append_left
    unfold markInterrupted
    refine List.mem_map.mpr ⟨m, hm, ?_⟩
    unfold interruptRow
    rw [if_pos ⟨hpar, hstr⟩]
  · rw [registrySet_messages, setMessages_messages, setConv_messages, setMessages_messages,
      setMessages_messages]
    apply List.mem_append_left
    exact List.mem_append_right _ (List.mem_singleton_self _)

/-- Closed instantiation of `postPreStream_edit_spec` at a state with a
STREAMING answer of the edited version. -/
theorem postPreStream_edit_spec_witness :
    (∀ c, c1InitState.regEntry = some c →
      c ∈ (postPreStream true true c4EditReq 2 3 101 c1InitState).1.aborted) ∧
    (∀ m ∈ c1InitState.store.messages, m.parentId = some 0 →
      m.status = Status.STREAMING →
      ({ m with
          status := Status.INTERRUPTED
          finishReason := some "user_edited_prompt" } : MsgRow) ∈
        (postPreStream true true c4EditReq 2 3 101 c1InitState).1.store.messages) ∧
    ((⟨2, .USER, c4EditReq.userMessage, .COMPLETE, some 0, 0, none, none, none, none⟩ : MsgRow) ∈
      (postPreStream true true c4EditReq 2 3 101 c1InitState).1.store.messages) :=
  postPreStream_edit_spec c4EditReq 2 3 101 c1InitState 0 rfl rfl rfl

/-! ### C8: message-list shapes of the three operations -/

theorem postPreStream_messages_decomp (req : GenRequest) (nu na nc : Nat) (st : SrvState) :
    ∃ ph : MsgRow,
      (postPreStream true true req nu na nc st).1.store.messages =
        (userCreateStage req nu st).1.store.messages ++ [ph] ∧
      ph.messageId = na ∧ ph.role = Role.ASSISTANT ∧ ph.status = Status.STREAMING :=
  ⟨_, rfl, rfl, rfl, rfl⟩

theorem userCreateStage_send_eq (content : String) (nu : Nat) (st : SrvState) :
    (userCreateStage (sendReq content) nu st).1.store.messages =
      st.store.messages ++
        [⟨nu, .USER, content, .COMPLETE, lastNonUserId st.store.messages,
          0, none, none, none, none⟩] := rfl

theorem userCreateStage_edit_eq (p : Nat) (content : String) (nu : Nat) (st : SrvState) :
    (userCreateStage (editReqOf p content) nu st).1.store.messages =
      markInterrupted p st.store.messages ++
        [⟨nu, .USER, content, .COMPLETE, some p, 0, none, none, none, none⟩] := by
  have h1 : (userCreateStage (editReqOf p content) nu st).1.store.messages =
      markInterrupted p (registryStop st).store.messages ++
        [⟨nu, .USER, content, .COMPLETE, some p, 0, none, none, none, none⟩] := rfl
  rw [registryStop_messages] at h1
  exact h1

theorem userCreateStage_regen_eq (u : Nat) (content : String) (i : Nat) (nu : Nat)
    (st : SrvState) :
    (userCreateStage (regenReqOf u content i) nu st).1.store.messages =
      st.store.messages := rfl

/-! ### C8: invariant preservation lemmas -/

theorem idsNodup_map (msgs : List MsgRow) (f : MsgRow → MsgRow)
    (hf : ∀ m, (f m).messageId = m.messageId) (h : IdsNodup msgs) :
    IdsNodup (msgs.map f) := by
  unfold IdsNodup at *
  rw [List.map_map]
  have hfe : MsgRow.messageId ∘ f = MsgRow.messageId := funext fun m => hf m
  rw [hfe]
  exact h

theorem filter_map_of_pred (l : List MsgRow) (f : MsgRow → MsgRow) (p : MsgRow → Bool)
    (hp : ∀ m, p (f m) = p m) :
    (l.map f).filter p = (l.filter p).map f := by
  induction l with
  | nil => rfl
  | cons m t ih =>
    simp only [List.map_cons, List.filter_cons, hp m]
    cases hc : p m with
    | true => simp [ih]
    | false => simp [ih]

theorem lastNonUserId_map (msgs : List MsgRow) (f : MsgRow → MsgRow)
    (hrole : ∀ m, (f m).role = m.role) (hid : ∀ m, (f m).messageId = m.messageId) :
    lastNonUserId (msgs.map f) = lastNonUserId msgs := by
  unfold lastNonUserId
  rw [filter_map_of_pred msgs f _ (fun m => by rw [hrole m]), List.getLast?_map]
  cases hg : (msgs.filter
      (fun m => m.role = Role.ASSISTANT ∨ m.role = Role.SYSTEM)).getLast? with
  | none => rfl
  | some m =>
    show some (f m).messageId = some m.messageId
    rw [hid m]

theorem userParentOk_map (msgs : List MsgRow) (f : MsgRow → MsgRow)
    (hf : ∀ m, (f m).messageId = m.messageId ∧ (f m).role = m.role ∧
      (f m).parentId = m.parentId)
    (h : UserParentOk msgs) : UserParentOk (msgs.map f) := by
  intro i mi hmi hrole
  rw [List.getElem?_map] at hmi
  cases hm0 : msgs[i]? with
  | none =>
    rw [hm0] at hmi
    exact Option.noConfusion hmi
  | some m0 =>
    rw [hm0] at hmi
    have hfm : f m0 = mi := Option.some.inj hmi
    subst hfm
    have hrole0 : m0.role = Role.USER := by
      rw [← (hf m0).2.1]
      exact hrole
    rcases h i m0 hm0 hrole0 with hcase | ⟨j, mj, hj, hmj, hmjrole, hmjid⟩
    · left
      rw [(hf m0).2.2, hcase]
      unfold lastNonUserBefore
      rw [← List.map_take, lastNonUserId_map _ f (fun m => (hf m).2.1) (fun m => (hf m).1)]
    · right
      have e1 : (msgs.map f)[j]? = some (f mj) := by
        rw [List.getElem?_map, hmj]
        rfl
      have e2 : (f mj).role = Role.USER := by
        rw [(hf mj).2.1]
        exact hmjrole
      have e3 : some (f mj).messageId = (f m0).parentId := by
        rw [(hf mj).1, (hf m0).2.2]
        exact hmjid
      exact ⟨j, f mj, hj, e1, e2, e3⟩

theorem lastNonUserBefore_append (msgs : List MsgRow) (t : List MsgRow) (i : Nat)
    (hi : i ≤ msgs.length) :
    lastNonUserBefore (msgs ++ t) i = lastNonUserBefore msgs i := by
  unfold lastNonUserBefore
  rw [List.take_append_of_le_length hi]

theorem userParentOk_append_nonuser (msgs : List MsgRow) (row : MsgRow)
    (hrole : row.role ≠ Role.USER) (h : UserParentOk msgs) :
    UserParentOk (msgs ++ [row]) := by
  intro i mi hmi hriole
  by_cases hi : i < msgs.length
  · rw [List.getElem?_append_left hi] at hmi
    rcases h i mi hmi hriole with hc | ⟨j, mj, hj, hmj, h1, h2⟩
    · left
      rw [hc, lastNonUserBefore_append msgs [row] i (le_of_lt hi)]
    · right
      refine ⟨j, mj, hj, ?_, h1, h2⟩
      rw [List.getElem?_append_left (lt_trans hj hi)]
      exact hmj
  · exfalso
    have hlen : i < msgs.length + 1 := by
      by_contra hcon
      rw [List.getElem?_eq_none (by simpa using Nat.le_of_not_lt hcon)] at hmi
      cases hmi
    have hieq : i = msgs.length := by omega
    subst hieq
    rw [List.getElem?_concat_length] at hmi
    cases hmi
    exact hrole hriole

theorem userParentOk_append_user (msgs : List MsgRow) (row : MsgRow)
    (_hrole : row.role = Role.USER)
    (hpar : row.parentId = lastNonUserId msgs ∨
      ∃ (j : Nat) (mj : MsgRow), msgs[j]? = some mj ∧ mj.role = Role.USER ∧
        some mj.messageId = row.parentId)
    (h : UserParentOk msgs) : UserParentOk (msgs ++ [row]) := by
  intro i mi hmi hriole
  by_cases hi : i < msgs.length
  · rw [List.getElem?_append_left hi] at hmi
    rcases h i mi hmi hriole with hc | ⟨j, mj, hj, hmj, h1, h2⟩
    · left
      rw [hc, lastNonUserBefore_append msgs [row] i (le_of_lt hi)]
    · right
      refine ⟨j, mj, hj, ?_, h1, h2⟩
      rw [List.getElem?_append_left (lt_trans hj hi)]
      exact hmj
  · have hlen : i < msgs.length + 1 := by
      by_contra hcon
      rw [List.getElem?_eq_none (by simpa using Nat.le_of_not_lt hcon)] at hmi
      cases hmi
    have hieq : i = msgs.length := by omega
    subst hieq
    rw [List.getElem?_concat_length] at hmi
    cases hmi
    rcases hpar with hc | ⟨j, mj, hmj, h1, h2⟩
    · left
      unfold lastNonUserBefore
      rw [List.take_left]
      exact hc
    · right
      have hj : j < msgs.length := by
        by_contra hcon
        rw [List.getElem?_eq_none (Nat.le_of_not_lt hcon)] at hmj
        cases hmj
      refine ⟨j, mj, hj, ?_, h1, h2⟩
      rw [List.getElem?_append_left hj]
      exact hmj

theorem idsNodup_append_one (msgs : List MsgRow) (row : MsgRow)
    (hfresh : ∀ m ∈ msgs, m.messageId ≠ row.messageId)
    (h : IdsNodup msgs) : IdsNodup (msgs ++ [row]) := by
  unfold IdsNodup at *
  rw [List.map_append]
  rw [List.nodup_append]
  refine ⟨h, List.nodup_singleton _, ?_⟩
  intro a ha hb
  obtain ⟨m, hm, hma⟩ := List.mem_map.mp ha
  have : a = row.messageId := by simpa using hb
  exact hfresh m hm (by rw [hma, this])

theorem lastNonUserBefore_spec (msgs : List MsgRow) (i : Nat) (x : Nat)
    (h : lastNonUserBefore msgs i = some x) :
    ∃ (k : Nat) (mk : MsgRow), k < i ∧ msgs[k]? = some mk ∧
      mk.role ≠ Role.USER ∧ mk.messageId = x := by
  unfold lastNonUserBefore lastNonUserId at h
  cases hg : ((msgs.take i).filter
      (fun m => m.role = Role.ASSISTANT ∨ m.role = Role.SYSTEM)).getLast? with
  | none => rw [hg] at h; cases h
  | some y =>
    rw [hg] at h
    have hxy : y.messageId = x := Option.some.inj h
    have hymem : y ∈ (msgs.take i).filter
        (fun m => m.role = Role.ASSISTANT ∨ m.role = Role.SYSTEM) :=
      List.mem_of_mem_getLast? hg
    have hy2 := List.of_mem_filter hymem
    have hy3 : y ∈ msgs.take i := List.mem_of_mem_filter hymem
    obtain ⟨k, hk⟩ := List.mem_iff_getElem?.mp hy3
    have hki : k < i := by
      by_contra hcon
      rw [List.getElem?_eq_none] at hk
      · cases hk
      · have hlen : (msgs.take i).length ≤ i := by
          rw [List.length_take]
          omega
        omega
    have hkm : msgs[k]? = some y := by
      rw [← List.getElem?_take_of_lt hki]
      exact hk
    have hyrole : y.role ≠ Role.USER := by
      rcases of_decide_eq_true hy2 with h1 | h1 <;> rw [h1] <;> intro hx <;> cases hx
    exact ⟨k, y, hki, hkm, hyrole, hxy⟩

theorem idsNodup_position (msgs : List MsgRow) (hn : IdsNodup msgs)
    (j k : Nat) (mj mk : MsgRow) (hj : msgs[j]? = some mj) (hk : msgs[k]? = some mk)
    (hid : mj.messageId = mk.messageId) : j = k := by
  have hjlen : j < msgs.length := by
    by_contra hcon
    rw [List.getElem?_eq_none (Nat.le_of_not_lt hcon)] at hj
    cases hj
  have h1 : (msgs.map MsgRow.messageId)[j]? = some mj.messageId := by
    rw [List.getElem?_map, hj]
    rfl
  have h2 : (msgs.map MsgRow.messageId)[k]? = some mk.messageId := by
    rw [List.getElem?_map, hk]
    rfl
  apply List.getElem?_inj (by simpa using hjlen) hn
  rw [h1, h2, hid]

theorem acyclic_of_invariant (msgs : List MsgRow)
    (hn : IdsNodup msgs) (hp : UserParentOk msgs) :
    ∀ (i : Nat) (mi : MsgRow) (j : Nat) (mj : MsgRow),
      msgs[i]? = some mi → msgs[j]? = some mj →
      mi.role = Role.USER → mj.role = Role.USER →
      mi.parentId = some mj.messageId → j < i := by
  intro i mi j mj hmi hmj hri hrj hpar
  rcases hp i mi hmi hri with hc | ⟨j2, mj2, hj2, hmj2, hr2, hid2⟩
  · exfalso
    rw [hpar] at hc
    obtain ⟨k, mk, hki, hkm, hkrole, hkid⟩ :=
      lastNonUserBefore_spec msgs i mj.messageId hc.symm
    have hkj : k = j := idsNodup_position msgs hn k j mk mj hkm hmj hkid
    subst hkj
    rw [hkm] at hmj
    cases hmj
    exact hkrole hrj
  · have hid : mj2.messageId = mj.messageId := by
      rw [hpar] at hid2
      exact Option.some.inj hid2
    have hjeq : j2 = j := idsNodup_position msgs hn j2 j mj2 mj hmj2 hmj hid
    omega

theorem interruptRow_fields (p : Nat) (m : MsgRow) :
    (interruptRow p m).messageId = m.messageId ∧ (interruptRow p m).role = m.role ∧
    (interruptRow p m).parentId = m.parentId := by
  unfold interruptRow
  split <;> exact ⟨rfl, rfl, rfl⟩

/-- C8, amended: in every state reachable through the create / edit /
regenerate operations (and row updates that never touch ids, roles or
parents), message ids are unique, every USER row's parent is null, the
most recent non-USER row at its creation time, or an earlier USER version
(the edit-chain parent); and every USER-to-USER parent pointer goes to a
strictly earlier row, so the edit-chain parent pointers are acyclic and
each message has at most one parent (no merges). The chains can branch —
editing a non-latest version gives two USER rows sharing the same prior
version — so they form a tree, not necessarily a simple path. -/
theorem reachable_edit_chain_tree (st : SrvState) (h : Reachable st) :
    IdsNodup st.store.messages ∧ UserParentOk st.store.messages ∧
    (∀ (i : Nat) (mi : MsgRow) (j : Nat) (mj : MsgRow),
      st.store.messages[i]? = some mi → st.store.messages[j]? = some mj →
      mi.role = Role.USER → mj.role = Role.USER →
      mi.parentId = some mj.messageId → j < i) := by
  have main : IdsNodup st.store.messages ∧ UserParentOk st.store.messages := by
    induction h with
    | init conv =>
      constructor
      · exact List.nodup_nil
      · intro i mi hmi
        simp at hmi
    | send st content nu na nc hnu hna hne hr ih =>
      obtain ⟨ph, hdec, hid, hrole, _⟩ :=
        postPreStream_messages_decomp (sendReq content) nu na nc st
      rw [hdec, userCreateStage_send_eq]
      constructor
      · apply idsNodup_append_one
        · intro m hm
          rw [hid]
          rcases List.mem_append.mp hm with h1 | h1
          · exact hna m h1
          · have hmu : m = ⟨nu, .USER, content, .COMPLETE,
                lastNonUserId st.store.messages, 0, none, none, none, none⟩ := by
              simpa using h1
            rw [hmu]
            exact hne
        · exact idsNodup_append_one _ _ (fun m hm => hnu m hm) ih.1
      · apply userParentOk_append_nonuser
        · rw [hrole]
          intro hx
          cases hx
        · exact userParentOk_append_user _ _ rfl (Or.inl rfl) ih.2
    | edit st p content nu na nc hp hnu hna hne hr ih =>
      obtain ⟨ph, hdec, hid, hrole, _⟩ :=
        postPreStream_messages_decomp (editReqOf p content) nu na nc st
      rw [hdec, userCreateStage_edit_eq]
      have hmark : markInterrupted p st.store.messages =
          st.store.messages.map (interruptRow p) := rfl
      rw [hmark]
      constructor
      · apply idsNodup_append_one
        · intro m hm
          rw [hid]
          rcases List.mem_append.mp hm with h1 | h1
          · obtain ⟨m0, hm0, hfm⟩ := List.mem_map.mp h1
            rw [← hfm, (interruptRow_fields p m0).1]
            exact hna m0 hm0
          · have hmu : m = ⟨nu, .USER, content, .COMPLETE, some p,
                0, none, none, none, none⟩ := by
              simpa using h1
            rw [hmu]
            exact hne
        · apply idsNodup_append_one
          · intro m hm
            obtain ⟨m0, hm0, hfm⟩ := List.mem_map.mp hm
            rw [← hfm, (interruptRow_fields p m0).1]
            exact hnu m0 hm0
          · exact idsNodup_map _ _ (fun m => (interruptRow_fields p m).1) ih.1
      · apply userParentOk_append_nonuser
        · rw [hrole]
          intro hx
          cases hx
        · apply userParentOk_append_user _ _ rfl ?_
            (userParentOk_map _ _ (interruptRow_fields p) ih.2)
          right
          obtain ⟨m, hm, hmid, hmrole⟩ := hp
          obtain ⟨j, hj⟩ := List.mem_iff_getElem?.mp hm
          refine ⟨j, interruptRow p m, ?_, ?_, ?_⟩
          · rw [List.getElem?_map, hj]
            rfl
          · rw [(interruptRow_fields p m).2.1]
            exact hmrole
          · rw [(interruptRow_fields p m).1, hmid]
    | regen st u content i nu na nc hu hna hr ih =>
      obtain ⟨ph, hdec, hid, hrole, _⟩ :=
        postPreStream_messages_decomp (regenReqOf u content i) nu na nc st
      rw [hdec, userCreateStage_regen_eq]
      constructor
      · apply idsNodup_append_one _ _ ?_ ih.1
        intro m hm
        rw [hid]
        exact hna m hm
      · apply userParentOk_append_nonuser
        · rw [hrole]
          intro hx
          cases hx
        · exact ih.2
    | update st f hf hr ih =>
      exact ⟨idsNodup_map _ f (fun m => (hf m).1) ih.1, userParentOk_map _ f hf ih.2⟩
    | registry st reg ab hr ih =>
      exact ih
  exact ⟨main.1, main.2, acyclic_of_invariant _ main.1 main.2⟩

theorem c8State_reachable : Reachable c8State := by
  have h0 : Reachable ⟨⟨⟨none, none⟩, []⟩, none, []⟩ := .init ⟨none, none⟩
  have h1 := Reachable.send _ "a" 0 1 10 (by decide) (by decide) (by decide) h0
  have h2 := Reachable.edit _ 0 "b" 2 3 11 (by decide) (by decide) (by decide)
    (by decide) h1
  have h3 := Reachable.edit _ 0 "c" 4 5 12 (by decide) (by decide) (by decide)
    (by decide) h2
  exact h3

/-- C8, counterexample: after sending one message and editing its version 0
twice (the UI allows navigating back to an older version and editing it),
the reachable store holds two distinct USER rows (ids 2 and 4) whose
edit-chain parent is the same USER row 0 — the edit-chain parent pointers
branch, so they do not form a simple path. -/
theorem c8_edit_branching_cex :
    Reachable c8State ∧
    (∃ m ∈ c8State.store.messages, m.messageId = 2 ∧ m.role = Role.USER ∧
      m.parentId = some 0) ∧
    (∃ m ∈ c8State.store.messages, m.messageId = 4 ∧ m.role = Role.USER ∧
      m.parentId = some 0) ∧
    (∃ m ∈ c8State.store.messages, m.messageId = 0 ∧ m.role = Role.USER) := by
  refine ⟨c8State_reachable, ?_, ?_, ?_⟩ <;> decide

/-- Closed instantiation of `reachable_edit_chain_tree` at the concrete
reachable state of the counterexample. -/
theorem reachable_edit_chain_tree_witness :
    IdsNodup c8State.store.messages ∧ UserParentOk c8State.store.messages ∧
    (∀ (i : Nat) (mi : MsgRow) (j : Nat) (mj : MsgRow),
      c8State.store.messages[i]? = some mi → c8State.store.messages[j]? = some mj →
      mi.role = Role.USER → mj.role = Role.USER →
      mi.parentId = some mj.messageId → j < i) :=
  reachable_edit_chain_tree c8State c8State_reachable

/-! ### C9: string-escape round trip -/

theorem hexVal_hexDigitChar : ∀ n < 16, hexVal (hexDigitChar n) = some n := by decide

theorem psb_close (f : Nat) (tail : List Char) :
    parseStringBody (f + 1) ('"' :: tail) = some ([], tail) := rfl

theorem psb_q (f : Nat) (tail : List Char) :
    parseStringBody (f + 1) ('\\' :: '"' :: tail) =
      (parseStringBody f tail).map (fun p => ('\"' :: p.1, p.2)) := rfl

theorem psb_bs (f : Nat) (tail : List Char) :
    parseStringBody (f + 1) ('\\' :: '\\' :: tail) =
      (parseStringBody f tail).map (fun p => ('\\' :: p.1, p.2)) := rfl

theorem psb_b (f : Nat) (tail : List Char) :
    parseStringBody (f + 1) ('\\' :: 'b' :: tail) =
      (parseStringBody f tail).map (fun p => (Char.ofNat 8 :: p.1, p.2)) := rfl

theorem psb_t (f : Nat) (tail : List Char) :
    parseStringBody (f + 1) ('\\' :: 't' :: tail) =
      (parseStringBody f tail).map (fun p => (Char.ofNat 9 :: p.1, p.2)) := rfl

theorem psb_n (f : Nat) (tail : List Char) :
    parseStringBody (f + 1) ('\\' :: 'n' :: tail) =
      (parseStringBody f tail).map (fun p => (Char.ofNat 10 :: p.1, p.2)) := rfl

theorem psb_f (f : Nat) (tail : List Char) :
    parseStringBody (f + 1) ('\\' :: 'f' :: tail) =
      (parseStringBody f tail).map (fun p => (Char.ofNat 12 :: p.1, p.2)) := rfl

theorem psb_r (f : Nat) (tail : List Char) :
    parseStringBody (f + 1) ('\\' :: 'r' :: tail) =
      (parseStringBody f tail).map (fun p => (Char.ofNat 13 :: p.1, p.2)) := rfl

theorem psb_u (f : Nat) (a b : Nat) (ha : a < 2) (hb : b < 16) (tail : List Char) :
    parseStringBody (f + 1)
        ('\\' :: 'u' :: '0' :: '0' :: hexDigitChar a :: hexDigitChar b :: tail) =
      (parseStringBody f tail).map (fun p => (Char.ofNat (a * 16 + b) :: p.1, p.2)) := by
  interval_cases a <;> interval_cases b <;> rfl

theorem psb_lit (f : Nat) (c : Char) (hc1 : ¬ c = '"') (hc2 : ¬ c = '\\')
    (tail : List Char) :
    parseStringBody (f + 1) (c :: tail) =
      (parseStringBody f tail).map (fun p => (c :: p.1, p.2)) := by
  have hstep : parseStringBody (f + 1) (c :: tail) =
      if c = '"' then some ([], tail)
      else if c = '\\' then parseEscStep (parseStringBody f) tail
      else (parseStringBody f tail).map (fun p => (c :: p.1, p.2)) := rfl
  rw [hstep, if_neg hc1, if_neg hc2]

theorem parseStringBody_round (s : List Char) :
    ∀ (fuel : Nat) (rest : List Char), (escapeList s).length < fuel →
      parseStringBody fuel (escapeList s ++ '"' :: rest) = some (s, rest) := by
  induction s with
  | nil =>
    intro fuel rest hf
    cases fuel with
    | zero => omega
    | succ f =>
      show parseStringBody (f + 1) ('"' :: rest) = some ([], rest)
      exact psb_close f rest
  | cons c t ih =>
    intro fuel rest hf
    have hesc : escapeList (c :: t) = escapeChar c ++ escapeList t := by
      simp [escapeList]
    rw [hesc] at hf ⊢
    rw [List.append_assoc]
    unfold escapeChar at hf ⊢
    split_ifs at hf ⊢ with h1 h2 h3 h4 h5 h6 h7 h8
    · subst h1
      simp only [List.length_append, List.length_cons, List.length_nil] at hf
      cases fuel with
      | zero => omega
      | succ f =>
        simp only [List.cons_append, List.nil_append]
        rw [psb_q, ih f rest (by omega)]
        rfl
    · subst h2
      simp only [List.length_append, List.length_cons, List.length_nil] at hf
      cases fuel with
      | zero => omega
      | succ f =>
        simp only [List.cons_append, List.nil_append]
        rw [psb_bs, ih f rest (by omega)]
        rfl
    · subst h3
      simp only [List.length_append, List.length_cons, List.length_nil] at hf
      cases fuel with
      | zero => omega
      | succ f =>
        simp only [List.cons_append, List.nil_append]
        rw [psb_b, ih f rest (by omega)]
        rfl
    · subst h4
      simp only [List.length_append, List.length_cons, List.length_nil] at hf
      cases fuel with
      | zero => omega
      | succ f =>
        simp only [List.cons_append, List.nil_append]
        rw [psb_t, ih f rest (by omega)]
        rfl
    · subst h5
      simp only [List.length_append, List.length_cons, List.length_nil] at hf
      cases fuel with
      | zero => omega
      | succ f =>
        simp only [List.cons_append, List.nil_append]
        rw [psb_n, ih f rest (by omega)]
        rfl
    · subst h6
      simp only [List.length_append, List.length_cons, List.length_nil] at hf
      cases fuel with
      | zero => omega
      | succ f =>
        simp only [List.cons_append, List.nil_append]
        rw [psb_f, ih f rest (by omega)]
        rfl
    · subst h7
      simp only [List.length_append, List.length_cons, List.length_nil] at hf
      cases fuel with
      | zero => omega
      | succ f =>
        simp only [List.cons_append, List.nil_append]
        rw [psb_r, ih f rest (by omega)]
        rfl
    · simp only [List.length_append, List.length_cons, List.length_nil] at hf
      cases fuel with
      | zero => omega
      | succ f =>
        simp only [List.cons_append, List.nil_append]
        rw [psb_u f (c.toNat / 16) (c.toNat % 16) (by omega)
          (Nat.mod_lt _ (by omega)) _, ih f rest (by omega)]
        have hmod : c.toNat / 16 * 16 + c.toNat % 16 = c.toNat := by omega
        rw [hmod, Char.ofNat_toNat]
        rfl
    · simp only [List.length_append, List.length_cons, List.length_nil] at hf
      cases fuel with
      | zero => omega
      | succ f =>
        simp only [List.cons_append, List.nil_append]
        rw [psb_lit f c h1 h2, ih f rest (by omega)]
        rfl

/-! ### C9: number round trip -/

theorem digitVal_none_of_not_digit (c : Char) (h : isDigitChar c = false) :
    digitVal c = none := by
  unfold digitVal
  unfold isDigitChar at h
  rw [if_neg (of_decide_eq_false h)]

theorem parseDigits_safe (rest : List Char) (hsafe : SafeHead rest) (acc : Nat) :
    parseDigits rest acc = (acc, rest) := by
  cases rest with
  | nil => rfl
  | cons c r =>
    have hd : digitVal c = none := digitVal_none_of_not_digit c (hsafe c rfl)
    simp [parseDigits, hd]

theorem parseDigits_step (c : Char) (d : Nat) (h : digitVal c = some d)
    (rest : List Char) (acc : Nat) :
    parseDigits (c :: rest) acc = parseDigits rest (acc * 10 + d) := by
  simp [parseDigits, h]

theorem digitVal_digitChar : ∀ n < 10, digitVal (Char.ofNat (48 + n)) = some n := by
  decide

theorem parseNat_cons (c : Char) (d : Nat) (h : digitVal c = some d)
    (rest : List Char) :
    parseNat (c :: rest) = some (parseDigits rest d) := by
  simp [parseNat, h]

theorem isDigitChar_digitChar : ∀ n < 10, isDigitChar (Char.ofNat (48 + n)) = true := by
  decide

theorem natToChars_head (n : Nat) :
    ∃ c tail, natToChars n = c :: tail ∧ isDigitChar c = true := by
  induction n using Nat.strong_induction_on with
  | _ n ih =>
    by_cases h : n < 10
    · refine ⟨Char.ofNat (48 + n), [], ?_, ?_⟩
      · rw [natToChars, dif_pos h]
      · exact isDigitChar_digitChar n h
    · obtain ⟨c, tail, hct, hdig⟩ := ih (n / 10) (Nat.div_lt_self (by omega) (by omega))
      refine ⟨c, tail ++ [Char.ofNat (48 + n % 10)], ?_, hdig⟩
      rw [natToChars, dif_neg h, hct]
      rfl

theorem parseNat_natToChars (n : Nat) :
    ∀ rest, parseNat (natToChars n ++ rest) = some (parseDigits rest n) := by
  induction n using Nat.strong_induction_on with
  | _ n ih =>
    intro rest
    by_cases h : n < 10
    · rw [natToChars, dif_pos h]
      exact parseNat_cons _ n (digitVal_digitChar n h) rest
    · rw [natToChars, dif_neg h]
      rw [List.append_assoc]
      rw [ih (n / 10) (Nat.div_lt_self (by omega) (by omega))]
      rw [show ([Char.ofNat (48 + n % 10)] ++ rest) = Char.ofNat (48 + n % 10) :: rest from rfl]
      rw [parseDigits_step _ (n % 10) (digitVal_digitChar (n % 10) (by omega))]
      congr 2
      omega

theorem parseIntChars_int (n : Int) (rest : List Char) (hsafe : SafeHead rest) :
    parseIntChars (intToChars n ++ rest) = some (n, rest) := by
  by_cases hn : n < 0
  · rw [intToChars, if_pos hn]
    rw [show ('-' :: natToChars n.natAbs) ++ rest = '-' :: (natToChars n.natAbs ++ rest)
      from rfl]
    rw [parseIntChars,
      if_pos (show ('-' :: (natToChars n.natAbs ++ rest)).head? = some '-' from rfl)]
    rw [show ('-' :: (natToChars n.natAbs ++ rest)).tail = natToChars n.natAbs ++ rest
      from rfl]
    rw [parseNat_natToChars, parseDigits_safe rest hsafe]
    show some ((-(n.natAbs : Int) : Int), rest) = some (n, rest)
    have hna : -((n.natAbs : Nat) : Int) = n := by omega
    rw [hna]
  · rw [intToChars, if_neg hn]
    obtain ⟨c, tail, hct, hdig⟩ := natToChars_head n.natAbs
    have hne : ((natToChars n.natAbs ++ rest).head? = some '-') = False := by
      rw [hct]
      simp only [List.cons_append, List.head?_cons, Option.some.injEq, eq_iff_iff,
        iff_false]
      intro hc
      rw [hc] at hdig
      exact absurd hdig (by decide)
    rw [parseIntChars, if_neg (by rw [hne]; exact id)]
    rw [parseNat_natToChars, parseDigits_safe rest hsafe]
    show some (((n.natAbs : Nat) : Int), rest) = some (n, rest)
    have hna : ((n.natAbs : Nat) : Int) = n := by omega
    rw [hna]

/-! ### C9: serializer shapes -/

theorem serializeTail_cons (x : MiniJson) (vs : List MiniJson) :
    serializeTail (x :: vs) = ',' :: (serializeJson x ++ serializeTail vs) := by
  simp [serializeTail]

theorem serializeFieldsTail_cons (kv : List Char × MiniJson)
    (fs : List (List Char × MiniJson)) :
    serializeFieldsTail (kv :: fs) =
      ',' :: ((quoteJson kv.1 ++ ':' :: serializeJson kv.2) ++ serializeFieldsTail fs) := by
  simp [serializeFieldsTail]

theorem serializeElems_cons (x : MiniJson) (vs : List MiniJson) :
    serializeElems (x :: vs) = serializeJson x ++ serializeTail vs := by
  induction vs generalizing x with
  | nil => simp [serializeElems, serializeTail]
  | cons y rest ih =>
    rw [show serializeElems (x :: y :: rest) =
        serializeJson x ++ ',' :: serializeElems (y :: rest) from rfl]
    rw [ih y, serializeTail_cons]

theorem serializeFields_cons (kv : List Char × MiniJson)
    (fs : List (List Char × MiniJson)) :
    serializeFields (kv :: fs) =
      (quoteJson kv.1 ++ ':' :: serializeJson kv.2) ++ serializeFieldsTail fs := by
  induction fs generalizing kv with
  | nil => simp [serializeFields, serializeFieldsTail]
  | cons f2 rest ih =>
    rw [show serializeFields (kv :: f2 :: rest) =
        quoteJson kv.1 ++ ':' :: serializeJson kv.2 ++
          ',' :: serializeFields (f2 :: rest) from rfl]
    rw [ih f2, serializeFieldsTail_cons]

theorem quoteJson_length (k : List Char) :
    (quoteJson k).length = (escapeList k).length + 2 := by
  simp [quoteJson]

theorem serializeJson_head (v : MiniJson) :
    ∃ c tail, serializeJson v = c :: tail ∧ ¬ c = ']' := by
  cases v with
  | null => exact ⟨'n', _, rfl, by decide⟩
  | bool b => cases b with
    | true => exact ⟨'t', _, rfl, by decide⟩
    | false => exact ⟨'f', _, rfl, by decide⟩
  | num n =>
    show ∃ c tail, intToChars n = c :: tail ∧ ¬ c = ']'
    by_cases hn : n < 0
    · rw [intToChars, if_pos hn]
      exact ⟨'-', _, rfl, by decide⟩
    · rw [intToChars, if_neg hn]
      obtain ⟨c, tail, hct, hdig⟩ := natToChars_head n.natAbs
      refine ⟨c, tail, hct, ?_⟩
      intro he
      rw [he] at hdig
      exact absurd hdig (by decide)
  | str s => exact ⟨'"', _, rfl, by decide⟩
  | arr xs => exact ⟨'[', _, rfl, by decide⟩
  | obj fs => exact ⟨lbrace, _, rfl, by decide⟩

theorem serializeJson_head_ne_rsqb (v : MiniJson) (X : List Char) :
    ¬ (serializeJson v ++ X).head? = some ']' := by
  obtain ⟨c, tail, hct, hne⟩ := serializeJson_head v
  rw [hct]
  intro hcon
  exact hne (Option.some.inj hcon)

theorem safeHead_tail_rsqb (vs : List MiniJson) (rest : List Char) :
    SafeHead (serializeTail vs ++ ']' :: rest) := by
  cases vs with
  | nil =>
    intro c hc
    cases hc
    decide
  | cons y r =>
    rw [serializeTail_cons]
    intro c hc
    cases hc
    decide

theorem safeHead_fieldsTail (fs : List (List Char × MiniJson)) (rest : List Char) :
    SafeHead (serializeFieldsTail fs ++ rbrace :: rest) := by
  cases fs with
  | nil =>
    intro c hc
    cases hc
    decide
  | cons kv r =>
    rw [serializeFieldsTail_cons]
    intro c hc
    cases hc
    decide

/-! ### C9: parser step reductions -/

theorem parseValue_cons (f : Nat) (c : Char) (rest : List Char) :
    parseValue (f + 1) (c :: rest) =
      (if c = 'n' then parseNull rest
      else if c = 't' then parseTrue rest
      else if c = 'f' then parseFalse rest
      else if c = '"' then (parseStringBody (f + 1) rest).map (fun p => (.str p.1, p.2))
      else if c = '[' then parseArrBody (parseValue f) (parseArrTail f) rest
      else if c = lbrace then parseObjBody (parseField f) (parseObjTail f) rest
      else parseNum (c :: rest)) := rfl

theorem parseArrTail_rsqb (f : Nat) (r : List Char) :
    parseArrTail (f + 1) (']' :: r) = some ([], r) := rfl

theorem parseArrTail_comma (f : Nat) (r : List Char) :
    parseArrTail (f + 1) (',' :: r) = parseArrStep (parseValue f) (parseArrTail f) r := rfl

theorem parseField_quote (f : Nat) (r : List Char) :
    parseField (f + 1) ('"' :: r) =
      parseFieldStep (parseStringBody (f + 1)) (parseValue f) r := rfl

theorem parseObjTail_rbrace (f : Nat) (r : List Char) :
    parseObjTail (f + 1) (rbrace :: r) = some ([], r) := rfl

theorem parseObjTail_comma (f : Nat) (r : List Char) :
    parseObjTail (f + 1) (',' :: r) = parseObjStep (parseField f) (parseObjTail f) r := rfl

/-! ### C9: single-production round trips -/

theorem parseValue_num (f : Nat) (n : Int) (rest : List Char) (hsafe : SafeHead rest) :
    parseValue (f + 1) (intToChars n ++ rest) = some (.num n, rest) := by
  have hmain := parseIntChars_int n rest hsafe
  by_cases hn : n < 0
  · rw [intToChars, if_pos hn] at hmain ⊢
    rw [show ('-' :: natToChars n.natAbs) ++ rest = '-' :: (natToChars n.natAbs ++ rest)
      from rfl]
    rw [parseValue_cons, if_neg (by decide), if_neg (by decide), if_neg (by decide),
      if_neg (by decide), if_neg (by decide), if_neg (by decide)]
    rw [parseNum,
      show '-' :: (natToChars n.natAbs ++ rest) = ('-' :: natToChars n.natAbs) ++ rest
        from rfl,
      hmain]
  · rw [intToChars, if_neg hn] at hmain ⊢
    obtain ⟨c, tail, hct, hdig⟩ := natToChars_head n.natAbs
    rw [hct] at hmain ⊢
    rw [show (c :: tail) ++ rest = c :: (tail ++ rest) from rfl]
    have hnotdig : ∀ d : Char, isDigitChar d = true →
        ¬ d = 'n' ∧ ¬ d = 't' ∧ ¬ d = 'f' ∧ ¬ d = '"' ∧ ¬ d = '[' ∧ ¬ d = lbrace := by
      intro d hd
      refine ⟨?_, ?_, ?_, ?_, ?_, ?_⟩ <;>
        (intro he; rw [he] at hd; exact absurd hd (by decide))
    obtain ⟨h1, h2, h3, h4, h5, h6⟩ := hnotdig c hdig
    rw [parseValue_cons, if_neg h1, if_neg h2, if_neg h3, if_neg h4, if_neg h5, if_neg h6]
    rw [parseNum,
      show c :: (tail ++ rest) = (c :: tail) ++ rest from rfl,
      hmain]

theorem parseValue_str (f : Nat) (s rest : List Char)
    (hlen : (escapeList s).length < f + 1) :
    parseValue (f + 1) (quoteJson s ++ rest) = some (.str s, rest) := by
  rw [show quoteJson s ++ rest = '"' :: (escapeList s ++ '"' :: rest) from by
    simp [quoteJson]]
  rw [parseValue_cons, if_neg (by decide), if_neg (by decide), if_neg (by decide),
    if_pos rfl]
  rw [parseStringBody_round s (f + 1) rest hlen]
  rfl

/-! ### C9: full JSON round trip -/

theorem parse_serialize (fuel : Nat) :
    (∀ (v : MiniJson) (rest : List Char),
        (serializeJson v).length < fuel → SafeHead rest →
        parseValue fuel (serializeJson v ++ rest) = some (v, rest)) ∧
    (∀ (vs : List MiniJson) (rest : List Char),
        (serializeTail vs).length < fuel →
        parseArrTail fuel (serializeTail vs ++ ']' :: rest) = some (vs, rest)) ∧
    (∀ (fs : List (List Char × MiniJson)) (rest : List Char),
        (serializeFieldsTail fs).length < fuel →
        parseObjTail fuel (serializeFieldsTail fs ++ rbrace :: rest) = some (fs, rest)) ∧
    (∀ (k : List Char) (v : MiniJson) (rest : List Char),
        (quoteJson k).length + (serializeJson v).length < fuel → SafeHead rest →
        parseField fuel (quoteJson k ++ ':' :: (serializeJson v ++ rest)) =
          some ((k, v), rest)) := by
  induction fuel using Nat.strong_induction_on with
  | _ fuel ih =>
    refine ⟨?_, ?_, ?_, ?_⟩
    · intro v rest hlen hsafe
      cases fuel with
      | zero => omega
      | succ f =>
        cases v with
        | null => rfl
        | bool b =>
          cases b with
          | true => rfl
          | false => rfl
        | num n => exact parseValue_num f n rest hsafe
        | str s =>
          have h2 : (quoteJson s).length < f + 1 := hlen
          have h3 := quoteJson_length s
          exact parseValue_str f s rest (by omega)
        | arr xs =>
          cases xs with
          | nil => rfl
          | cons x vs2 =>
            have hshape : serializeJson (.arr (x :: vs2)) ++ rest =
                '[' :: (serializeJson x ++ (serializeTail vs2 ++ ']' :: rest)) := by
              rw [show serializeJson (.arr (x :: vs2)) =
                '[' :: (serializeElems (x :: vs2) ++ [']']) from rfl, serializeElems_cons]
              simp
            have hlx : (serializeJson x).length + (serializeTail vs2).length + 2 =
                (serializeJson (.arr (x :: vs2))).length := by
              rw [show serializeJson (.arr (x :: vs2)) =
                '[' :: (serializeElems (x :: vs2) ++ [']']) from rfl, serializeElems_cons]
              simp only [List.length_cons, List.length_append, List.length_singleton,
                List.length_nil]
            rw [hshape, parseValue_cons, if_neg (by decide), if_neg (by decide),
              if_neg (by decide), if_neg (by decide), if_pos rfl]
            rw [parseArrBody]
            rw [if_neg (serializeJson_head_ne_rsqb x (serializeTail vs2 ++ ']' :: rest))]
            have hv := (ih f (by omega)).1 x (serializeTail vs2 ++ ']' :: rest)
              (by omega) (safeHead_tail_rsqb vs2 rest)
            rw [hv]
            dsimp only
            have ht := (ih f (by omega)).2.1 vs2 rest (by omega)
            rw [ht]
        | obj fs =>
          cases fs with
          | nil => rfl
          | cons kv fs2 =>
            have hshape : serializeJson (.obj (kv :: fs2)) ++ rest =
                lbrace :: (quoteJson kv.1 ++ ':' :: (serializeJson kv.2 ++
                  (serializeFieldsTail fs2 ++ rbrace :: rest))) := by
              rw [show serializeJson (.obj (kv :: fs2)) =
                lbrace :: (serializeFields (kv :: fs2) ++ [rbrace]) from rfl,
                serializeFields_cons]
              simp
            have hlq : (quoteJson kv.1).length + (serializeJson kv.2).length +
                (serializeFieldsTail fs2).length + 3 =
                (serializeJson (.obj (kv :: fs2))).length := by
              rw [show serializeJson (.obj (kv :: fs2)) =
                lbrace :: (serializeFields (kv :: fs2) ++ [rbrace]) from rfl,
                serializeFields_cons]
              simp only [List.length_cons, List.length_append, List.length_singleton,
                List.length_nil]
              omega
            rw [hshape, parseValue_cons, if_neg (by decide), if_neg (by decide),
              if_neg (by decide), if_neg (by decide), if_neg (by decide), if_pos rfl]
            rw [parseObjBody]
            have hhd : (quoteJson kv.1 ++ ':' :: (serializeJson kv.2 ++
                (serializeFieldsTail fs2 ++ rbrace :: rest))).head? = some '"' := rfl
            rw [if_neg (by rw [hhd]; decide)]
            have hf := (ih f (by omega)).2.2.2 kv.1 kv.2
              (serializeFieldsTail fs2 ++ rbrace :: rest) (by omega)
              (safeHead_fieldsTail fs2 rest)
            rw [hf]
            dsimp only
            have ht := (ih f (by omega)).2.2.1 fs2 rest (by omega)
            rw [ht]
    · intro vs rest hlen
      cases fuel with
      | zero => omega
      | succ g =>
        cases vs with
        | nil =>
          rw [show serializeTail ([] : List MiniJson) ++ ']' :: rest = ']' :: rest
            from rfl]
          exact parseArrTail_rsqb g rest
        | cons x vs2 =>
          have hshape : serializeTail (x :: vs2) ++ ']' :: rest =
              ',' :: (serializeJson x ++ (serializeTail vs2 ++ ']' :: rest)) := by
            rw [serializeTail_cons]
            simp
          have hlx : (serializeTail (x :: vs2)).length =
              (serializeJson x).length + (serializeTail vs2).length + 1 := by
            rw [serializeTail_cons]
            simp only [List.length_cons, List.length_append]
          rw [hshape, parseArrTail_comma, parseArrStep]
          have hv := (ih g (by omega)).1 x (serializeTail vs2 ++ ']' :: rest)
            (by omega) (safeHead_tail_rsqb vs2 rest)
          rw [hv]
          dsimp only
          have ht := (ih g (by omega)).2.1 vs2 rest (by omega)
          rw [ht]
    · intro fs rest hlen
      cases fuel with
      | zero => omega
      | succ g =>
        cases fs with
        | nil =>
          rw [show serializeFieldsTail
              ([] : List (List Char × MiniJson)) ++ rbrace :: rest = rbrace :: rest
            from rfl]
          exact parseObjTail_rbrace g rest
        | cons kv fs2 =>
          have hshape : serializeFieldsTail (kv :: fs2) ++ rbrace :: rest =
              ',' :: (quoteJson kv.1 ++ ':' :: (serializeJson kv.2 ++
                (serializeFieldsTail fs2 ++ rbrace :: rest))) := by
            rw [serializeFieldsTail_cons]
            simp
          have hlq : (serializeFieldsTail (kv :: fs2)).length =
              (quoteJson kv.1).length + (serializeJson kv.2).length +
                (serializeFieldsTail fs2).length + 2 := by
            rw [serializeFieldsTail_cons]
            simp only [List.length_cons, List.length_append]
            omega
          rw [hshape, parseObjTail_comma, parseObjStep]
          have hf := (ih g (by omega)).2.2.2 kv.1 kv.2
            (serializeFieldsTail fs2 ++ rbrace :: rest) (by omega)
            (safeHead_fieldsTail fs2 rest)
          rw [hf]
          dsimp only
          have ht := (ih g (by omega)).2.2.1 fs2 rest (by omega)
          rw [ht]
    · intro k v rest hlen hsafe
      cases fuel with
      | zero => omega
      | succ g =>
        have hshape : quoteJson k ++ ':' :: (serializeJson v ++ rest) =
            '"' :: (escapeList k ++ '"' :: (':' :: (serializeJson v ++ rest))) := by
          simp [quoteJson]
        have hq := quoteJson_length k
        rw [hshape, parseField_quote, parseFieldStep]
        rw [parseStringBody_round k (g + 1) (':' :: (serializeJson v ++ rest)) (by omega)]
        have hv := (ih g (by omega)).1 v rest (by omega) hsafe
        show Option.map (fun p => ((k, p.1), p.2)) (parseValue g (serializeJson v ++ rest)) =
          some ((k, v), rest)
        rw [hv]
        rfl

theorem jsonParseFull_serialize (v : MiniJson) :
    jsonParseFull (serializeJson v) = some v := by
  rw [jsonParseFull]
  have h := (parse_serialize ((serializeJson v).length + 1)).1 v []
    (by omega) (fun c hc => Option.noConfusion hc)
  rw [show serializeJson v ++ ([] : List Char) = serializeJson v from by simp] at h
  rw [h]

/-! ### C9: frame chopping -/

theorem splitOnce_some_structure :
    ∀ (s raw rest : List Char), splitOnce s = some (raw, rest) →
      s = raw ++ '\n' :: '\n' :: rest := by
  intro s
  induction s with
  | nil => intro raw rest h; exact Option.noConfusion h
  | cons c s2 ih =>
    intro raw rest h
    cases s2 with
    | nil => exact Option.noConfusion h
    | cons d r =>
      rw [show splitOnce (c :: d :: r) =
          (if c = '\n' ∧ d = '\n' then some (([] : List Char), r)
          else (splitOnce (d :: r)).map (fun p => (c :: p.1, p.2))) from rfl] at h
      by_cases hc : c = '\n' ∧ d = '\n'
      · rw [if_pos hc] at h
        rw [Option.some.injEq, Prod.mk.injEq] at h
        obtain ⟨h1, h2⟩ := h
        subst h1
        subst h2
        obtain ⟨hcn, hdn⟩ := hc
        subst hcn
        subst hdn
        rfl
      · rw [if_neg hc] at h
        cases hsp : splitOnce (d :: r) with
        | none => rw [hsp] at h; exact Option.noConfusion h
        | some p =>
          obtain ⟨p1, p2⟩ := p
          rw [hsp] at h
          rw [show Option.map (fun p => (c :: p.1, p.2)) (some (p1, p2)) =
            some (c :: p1, p2) from rfl] at h
          rw [Option.some.injEq, Prod.mk.injEq] at h
          obtain ⟨h1, h2⟩ := h
          subst h1
          subst h2
          have hdr := ih p1 p2 hsp
          rw [show (c :: p1) ++ '\n' :: '\n' :: p2 = c :: (p1 ++ '\n' :: '\n' :: p2)
            from rfl]
          rw [← hdr]

theorem splitOnce_append_some :
    ∀ (s raw rest t : List Char), splitOnce s = some (raw, rest) →
      splitOnce (s ++ t) = some (raw, rest ++ t) := by
  intro s
  induction s with
  | nil => intro raw rest t h; exact Option.noConfusion h
  | cons c s2 ih =>
    intro raw rest t h
    cases s2 with
    | nil => exact Option.noConfusion h
    | cons d r =>
      rw [show splitOnce (c :: d :: r) =
          (if c = '\n' ∧ d = '\n' then some (([] : List Char), r)
          else (splitOnce (d :: r)).map (fun p => (c :: p.1, p.2))) from rfl] at h
      rw [show (c :: d :: r) ++ t = c :: d :: (r ++ t) from rfl]
      rw [show splitOnce (c :: d :: (r ++ t)) =
          (if c = '\n' ∧ d = '\n' then some (([] : List Char), r ++ t)
          else (splitOnce (d :: (r ++ t))).map (fun p => (c :: p.1, p.2))) from rfl]
      by_cases hc : c = '\n' ∧ d = '\n'
      · rw [if_pos hc] at h
        rw [if_pos hc]
        rw [Option.some.injEq, Prod.mk.injEq] at h
        obtain ⟨h1, h2⟩ := h
        subst h1
        subst h2
        rfl
      · rw [if_neg hc] at h
        rw [if_neg hc]
        cases hsp : splitOnce (d :: r) with
        | none => rw [hsp] at h; exact Option.noConfusion h
        | some p =>
          obtain ⟨p1, p2⟩ := p
          rw [hsp] at h
          rw [show Option.map (fun p => (c :: p.1, p.2)) (some (p1, p2)) =
            some (c :: p1, p2) from rfl] at h
          rw [Option.some.injEq, Prod.mk.injEq] at h
          obtain ⟨h1, h2⟩ := h
          subst h1
          subst h2
          rw [show d :: (r ++ t) = (d :: r) ++ t from rfl, ih p1 p2 t hsp]
          rfl

theorem chopAll_of_none (fuel : Nat) (s : List Char) (h : splitOnce s = none) :
    chopAll fuel s = ([], s) := by
  cases fuel with
  | zero => rfl
  | succ f => rw [chopAll, h]

theorem chopAll_of_some (fuel : Nat) (s raw rest : List Char)
    (h : splitOnce s = some (raw, rest)) :
    chopAll (fuel + 1) s = (raw :: (chopAll fuel rest).1, (chopAll fuel rest).2) := by
  rw [chopAll, h]

theorem splitOnce_some_length (s raw rest : List Char)
    (h : splitOnce s = some (raw, rest)) :
    s.length = raw.length + rest.length + 2 := by
  rw [splitOnce_some_structure s raw rest h]
  simp only [List.length_append, List.length_cons]
  omega

theorem chopAll_canon : ∀ (fuel : Nat) (s : List Char), s.length < fuel →
    chopAll fuel s = satChop s := by
  intro fuel
  induction fuel using Nat.strong_induction_on with
  | _ fuel ih =>
    intro s hs
    cases fuel with
    | zero => omega
    | succ f =>
      cases hsp : splitOnce s with
      | none => rw [chopAll_of_none (f + 1) s hsp, satChop, chopAll_of_none _ s hsp]
      | some p =>
        obtain ⟨raw, rest⟩ := p
        have hl := splitOnce_some_length s raw rest hsp
        rw [chopAll_of_some f s raw rest hsp]
        rw [satChop, chopAll_of_some s.length s raw rest hsp]
        have h1 : chopAll f rest = satChop rest := ih f (by omega) rest (by omega)
        have h2 : chopAll s.length rest = satChop rest :=
          ih s.length (by omega) rest (by omega)
        rw [h1, h2]

theorem satChop_of_none (s : List Char) (h : splitOnce s = none) :
    satChop s = ([], s) := chopAll_of_none _ s h

theorem satChop_of_some (s raw rest : List Char) (h : splitOnce s = some (raw, rest)) :
    satChop s = (raw :: (satChop rest).1, (satChop rest).2) := by
  have hl := splitOnce_some_length s raw rest h
  rw [satChop, chopAll_of_some s.length s raw rest h,
    chopAll_canon s.length rest (by omega)]

theorem satChop_leftover_aux : ∀ (n : Nat) (s : List Char), s.length ≤ n →
    splitOnce (satChop s).2 = none := by
  intro n
  induction n using Nat.strong_induction_on with
  | _ n ih =>
    intro s hs
    cases hsp : splitOnce s with
    | none => rw [satChop_of_none s hsp]; exact hsp
    | some p =>
      obtain ⟨raw, rest⟩ := p
      have hl := splitOnce_some_length s raw rest hsp
      rw [satChop_of_some s raw rest hsp]
      exact ih rest.length (by omega) rest (by omega)

theorem satChop_leftover (s : List Char) : splitOnce (satChop s).2 = none :=
  satChop_leftover_aux s.length s (Nat.le_refl _)

theorem satChop_append_aux : ∀ (n : Nat) (s : List Char), s.length ≤ n →
    ∀ (t : List Char),
      satChop (s ++ t) = ((satChop s).1 ++ (satChop ((satChop s).2 ++ t)).1,
        (satChop ((satChop s).2 ++ t)).2) := by
  intro n
  induction n using Nat.strong_induction_on with
  | _ n ih =>
    intro s hs t
    cases hsp : splitOnce s with
    | none =>
      rw [satChop_of_none s hsp]
      simp
    | some p =>
      obtain ⟨raw, rest⟩ := p
      have hl := splitOnce_some_length s raw rest hsp
      have hsp2 := splitOnce_append_some s raw rest t hsp
      rw [satChop_of_some s raw rest hsp, satChop_of_some (s ++ t) raw (rest ++ t) hsp2]
      have hih := ih rest.length (by omega) rest (by omega) t
      rw [hih]
      simp

theorem satChop_append (s t : List Char) :
    satChop (s ++ t) = ((satChop s).1 ++ (satChop ((satChop s).2 ++ t)).1,
      (satChop ((satChop s).2 ++ t)).2) :=
  satChop_append_aux s.length s (Nat.le_refl _) t

theorem splitOnce_clean : ∀ (raw : List Char), cleanBuf raw = true →
    ∀ (rest : List Char), splitOnce (raw ++ '\n' :: '\n' :: rest) = some (raw, rest) := by
  intro raw
  induction raw with
  | nil => intro _ rest; rfl
  | cons c raw2 ih =>
    intro hclean rest
    cases raw2 with
    | nil =>
      have hc : ¬ c = '\n' := by
        intro he
        subst he
        exact absurd hclean (by decide)
      have h0 : splitOnce ('\n' :: '\n' :: rest) = some (([] : List Char), rest) := rfl
      rw [show (c :: ([] : List Char)) ++ '\n' :: '\n' :: rest = c :: '\n' :: '\n' :: rest
        from rfl]
      rw [show splitOnce (c :: '\n' :: '\n' :: rest) =
          (if c = '\n' ∧ ('\n' : Char) = '\n' then some (([] : List Char), '\n' :: rest)
          else (splitOnce ('\n' :: '\n' :: rest)).map (fun p => (c :: p.1, p.2)))
        from rfl]
      rw [if_neg (fun hand => hc hand.1), h0]
      rfl
    | cons d raw3 =>
      have hstep : cleanBuf (c :: d :: raw3) =
          (if c = '\n' then (if d = '\n' then false else cleanBuf (d :: raw3))
          else cleanBuf (d :: raw3)) := rfl
      rw [hstep] at hclean
      have hnotand : ¬ (c = '\n' ∧ d = '\n') := by
        intro hand
        rw [if_pos hand.1, if_pos hand.2] at hclean
        exact Bool.noConfusion hclean
      have htail : cleanBuf (d :: raw3) = true := by
        by_cases h1 : c = '\n'
        · rw [if_pos h1] at hclean
          by_cases h2 : d = '\n'
          · exact absurd ⟨h1, h2⟩ hnotand
          · rw [if_neg h2] at hclean; exact hclean
        · rw [if_neg h1] at hclean; exact hclean
      rw [show (c :: d :: raw3) ++ '\n' :: '\n' :: rest =
        c :: ((d :: raw3) ++ '\n' :: '\n' :: rest) from rfl]
      rw [show splitOnce (c :: ((d :: raw3) ++ '\n' :: '\n' :: rest)) =
          (if c = '\n' ∧ d = '\n' then some (([] : List Char), raw3 ++ '\n' :: '\n' :: rest)
          else (splitOnce ((d :: raw3) ++ '\n' :: '\n' :: rest)).map
            (fun p => (c :: p.1, p.2))) from rfl]
      rw [if_neg hnotand, ih htail rest]
      rfl

theorem satChop_frames : ∀ (frames : List (List Char)),
    (∀ r ∈ frames, cleanBuf r = true) →
    satChop ((frames.map (fun r => r ++ ['\n', '\n'])).flatten) = (frames, []) := by
  intro frames
  induction frames with
  | nil =>
    intro _
    exact satChop_of_none [] rfl
  | cons r fr ih =>
    intro hclean
    have hshape : (List.map (fun x => x ++ ['\n', '\n']) (r :: fr)).flatten =
        r ++ '\n' :: '\n' :: (List.map (fun x => x ++ ['\n', '\n']) fr).flatten := by
      simp
    rw [hshape]
    have hsp := splitOnce_clean r (hclean r (by simp))
      ((List.map (fun x => x ++ ['\n', '\n']) fr).flatten)
    rw [satChop_of_some _ r _ hsp]
    rw [ih (fun x hx => hclean x (by simp [hx]))]

theorem foldl_feedChunk : ∀ (chunks : List (List Char)) (acc : List (List Char))
    (buf : List Char), splitOnce buf = none →
    chunks.foldl feedChunk (acc, buf) =
      (acc ++ (satChop (buf ++ chunks.flatten)).1, (satChop (buf ++ chunks.flatten)).2) := by
  intro chunks
  induction chunks with
  | nil =>
    intro acc buf hbuf
    have h0 := satChop_of_none buf hbuf
    simp only [List.flatten_nil, List.append_nil, List.foldl_nil, h0]
  | cons c rest ih =>
    intro acc buf hbuf
    rw [List.foldl_cons]
    rw [show feedChunk (acc, buf) c =
      (acc ++ (satChop (buf ++ c)).1, (satChop (buf ++ c)).2) from rfl]
    rw [ih (acc ++ (satChop (buf ++ c)).1) ((satChop (buf ++ c)).2)
      (satChop_leftover (buf ++ c))]
    rw [show buf ++ (c :: rest).flatten = (buf ++ c) ++ rest.flatten from by simp]
    rw [satChop_append (buf ++ c) rest.flatten]
    simp [List.append_assoc]

theorem runReader_satChop (chunks : List (List Char)) :
    runReader chunks = satChop chunks.flatten := by
  rw [runReader, foldl_feedChunk chunks [] [] rfl]
  simp

/-! ### C9: per-frame parsing -/

theorem splitLines_no_nl : ∀ (xs : List Char), (∀ c ∈ xs, ¬ c = '\n') →
    splitLines xs = [xs] := by
  intro xs
  induction xs with
  | nil => intro _; rfl
  | cons c r ih =>
    intro h
    rw [splitLines, if_neg (h c (by simp)), ih (fun e he => h e (by simp [he]))]

theorem splitLines_append_nl : ∀ (xs ys : List Char), (∀ c ∈ xs, ¬ c = '\n') →
    splitLines (xs ++ '\n' :: ys) = xs :: splitLines ys := by
  intro xs ys
  induction xs with
  | nil =>
    intro _
    rw [show ([] : List Char) ++ '\n' :: ys = '\n' :: ys from rfl]
    rw [splitLines, if_pos rfl]
  | cons c r ih =>
    intro h
    rw [show (c :: r) ++ '\n' :: ys = c :: (r ++ '\n' :: ys) from rfl]
    rw [splitLines, if_neg (h c (by simp)), ih (fun e he => h e (by simp [he]))]

theorem parseFrame_rawFrame (e d : List Char) (he : ∀ c ∈ e, ¬ c = '\n')
    (hd : ∀ c ∈ d, ¬ c = '\n') :
    parseFrame (rawFrame e d) = (e, some d) := by
  have hev : ∀ c ∈ "event: ".toList ++ e, ¬ c = '\n' := by
    intro c hc
    rcases List.mem_append.mp hc with h1 | h2
    · intro he2
      subst he2
      revert h1
      decide
    · exact he c h2
  have hda : ∀ c ∈ "data: ".toList ++ d, ¬ c = '\n' := by
    intro c hc
    rcases List.mem_append.mp hc with h1 | h2
    · intro he2
      subst he2
      revert h1
      decide
    · exact hd c h2
  have hsl : splitLines (rawFrame e d) =
      [("event: ".toList ++ e), ("data: ".toList ++ d)] := by
    rw [show rawFrame e d = ("event: ".toList ++ e) ++ '\n' :: ("data: ".toList ++ d)
      from by simp [rawFrame]]
    rw [splitLines_append_nl _ _ hev, splitLines_no_nl _ hda]
  have hfind1 : List.find? (fun l => List.isPrefixOf "event: ".toList l)
      [("event: ".toList ++ e), ("data: ".toList ++ d)] =
      some ("event: ".toList ++ e) := by
    rw [List.find?_cons_of_pos]
    show List.isPrefixOf "event: ".toList ("event: ".toList ++ e) = true
    rw [List.isPrefixOf_iff_prefix]
    exact List.prefix_append _ _
  have hfind2 : List.find? (fun l => List.isPrefixOf "data: ".toList l)
      [("event: ".toList ++ e), ("data: ".toList ++ d)] =
      some ("data: ".toList ++ d) := by
    rw [List.find?_cons_of_neg]
    · rw [List.find?_cons_of_pos]
      show List.isPrefixOf "data: ".toList ("data: ".toList ++ d) = true
      rw [List.isPrefixOf_iff_prefix]
      exact List.prefix_append _ _
    · exact fun h => Bool.noConfusion h
  have hdrop1 : List.drop 7 ("event: ".toList ++ e) = e := by
    rw [show (7 : Nat) = ("event: ".toList).length from rfl]
    exact List.drop_left _ _
  have hdrop2 : List.drop 6 ("data: ".toList ++ d) = d := by
    rw [show (6 : Nat) = ("data: ".toList).length from rfl]
    exact List.drop_left _ _
  rw [parseFrame, hsl, hfind1, hfind2]
  simp [hdrop1, hdrop2]

/-! ### C9: the serializer emits no newline -/

theorem hexDigitChar_ne_nl : ∀ m < 16, ¬ hexDigitChar m = '\n' := by decide

theorem escapeChar_no_nl (c : Char) : '\n' ∉ escapeChar c := by
  rw [escapeChar]
  split_ifs with h1 h2 h3 h4 h5 h6 h7 h8
  · decide
  · decide
  · decide
  · decide
  · decide
  · decide
  · decide
  · intro hmem
    simp only [List.mem_cons, List.not_mem_nil, or_false] at hmem
    rcases hmem with h | h | h | h | h | h
    · exact absurd h (by decide)
    · exact absurd h (by decide)
    · exact absurd h (by decide)
    · exact absurd h (by decide)
    · exact hexDigitChar_ne_nl (c.toNat / 16) (by omega) h.symm
    · exact hexDigitChar_ne_nl (c.toNat % 16) (by omega) h.symm
  · intro hmem
    simp only [List.mem_cons, List.not_mem_nil, or_false] at hmem
    have hlt : c.toNat < 32 := by rw [← hmem]; decide
    exact h8 hlt

theorem escapeList_no_nl (s : List Char) : '\n' ∉ escapeList s := by
  intro h
  rw [escapeList, List.mem_flatMap] at h
  obtain ⟨c, _, hc⟩ := h
  exact escapeChar_no_nl c hc

theorem quoteJson_no_nl (k : List Char) : '\n' ∉ quoteJson k := by
  intro h
  rw [quoteJson] at h
  simp only [List.mem_cons, List.mem_append, List.mem_singleton] at h
  rcases h with h | h | h
  · exact absurd h (by decide)
  · exact escapeList_no_nl k h
  · exact absurd h (by decide)

theorem natToChars_digits : ∀ (n : Nat), ∀ c ∈ natToChars n, isDigitChar c = true := by
  intro n
  induction n using Nat.strong_induction_on with
  | _ n ih =>
    intro c hc
    by_cases h : n < 10
    · rw [natToChars, dif_pos h] at hc
      simp only [List.mem_cons, List.not_mem_nil, or_false] at hc
      subst hc
      interval_cases n <;> decide
    · rw [natToChars, dif_neg h] at hc
      rcases List.mem_append.mp hc with h1 | h2
      · exact ih (n / 10) (Nat.div_lt_self (by omega) (by omega)) c h1
      · simp only [List.mem_cons, List.not_mem_nil, or_false] at h2
        subst h2
        have hall : ∀ m < 10, isDigitChar (Char.ofNat (48 + m)) = true := by decide
        exact hall (n % 10) (by omega)

theorem intToChars_no_nl (n : Int) : '\n' ∉ intToChars n := by
  intro h
  rw [intToChars] at h
  by_cases hn : n < 0
  · rw [if_pos hn] at h
    simp only [List.mem_cons] at h
    rcases h with h | h
    · exact absurd h (by decide)
    · exact absurd (natToChars_digits n.natAbs '\n' h) (by decide)
  · rw [if_neg hn] at h
    exact absurd (natToChars_digits n.natAbs '\n' h) (by decide)

theorem serializeJson_no_nl_aux : ∀ (n : Nat) (v : MiniJson), sizeOf v < n →
    '\n' ∉ serializeJson v := by
  intro n
  induction n using Nat.strong_induction_on with
  | _ n ih =>
    intro v hv hmem
    cases v with
    | null => revert hmem; decide
    | bool b =>
      cases b with
      | true => revert hmem; decide
      | false => revert hmem; decide
    | num m => exact intToChars_no_nl m hmem
    | str s => exact quoteJson_no_nl s hmem
    | arr xs =>
      rw [show serializeJson (.arr xs) = '[' :: (serializeElems xs ++ [']'])
        from rfl] at hmem
      simp only [List.mem_cons, List.mem_append, List.mem_singleton] at hmem
      rcases hmem with h | h | h
      · exact absurd h (by decide)
      · cases xs with
        | nil => simp [serializeElems] at h
        | cons x vs =>
          rw [serializeElems_cons] at h
          rcases List.mem_append.mp h with h1 | h2
          · have hs1 : sizeOf x < sizeOf (MiniJson.arr (x :: vs)) := by
              simp only [MiniJson.arr.sizeOf_spec, List.cons.sizeOf_spec]
              omega
            exact ih (sizeOf x + 1) (by omega) x (by omega) h1
          · rw [serializeTail, List.mem_flatMap] at h2
            obtain ⟨y, hy, hmy⟩ := h2
            simp only [List.mem_cons] at hmy
            rcases hmy with h3 | h3
            · exact absurd h3 (by decide)
            · have hm := List.sizeOf_lt_of_mem hy
              have hs2 : sizeOf y < sizeOf (MiniJson.arr (x :: vs)) := by
                simp only [MiniJson.arr.sizeOf_spec, List.cons.sizeOf_spec]
                omega
              exact ih (sizeOf y + 1) (by omega) y (by omega) h3
      · exact absurd h (by decide)
    | obj fs =>
      rw [show serializeJson (.obj fs) = lbrace :: (serializeFields fs ++ [rbrace])
        from rfl] at hmem
      simp only [List.mem_cons, List.mem_append, List.mem_singleton] at hmem
      rcases hmem with h | h | h
      · exact absurd h (by decide)
      · cases fs with
        | nil => simp [serializeFields] at h
        | cons kv fs2 =>
          obtain ⟨k2, v2⟩ := kv
          rw [serializeFields_cons] at h
          rcases List.mem_append.mp h with h1 | h2
          · rcases List.mem_append.mp h1 with h3 | h4
            · exact quoteJson_no_nl k2 h3
            · simp only [List.mem_cons] at h4
              rcases h4 with h5 | h5
              · exact absurd h5 (by decide)
              · have hs : sizeOf v2 < sizeOf (MiniJson.obj ((k2, v2) :: fs2)) := by
                  simp only [MiniJson.obj.sizeOf_spec, List.cons.sizeOf_spec,
                    Prod.mk.sizeOf_spec]
                  omega
                exact ih (sizeOf v2 + 1) (by omega) v2 (by omega) h5
          · rw [serializeFieldsTail, List.mem_flatMap] at h2
            obtain ⟨y, hy, hmy⟩ := h2
            obtain ⟨yk, yv⟩ := y
            simp only [List.mem_cons, List.mem_append] at hmy
            rcases hmy with h3 | h3 | h3 | h3
            · exact absurd h3 (by decide)
            · exact quoteJson_no_nl yk h3
            · exact absurd h3 (by decide)
            · have hm := List.sizeOf_lt_of_mem hy
              have hsy : sizeOf yv < sizeOf (MiniJson.obj ((k2, v2) :: fs2)) := by
                simp only [MiniJson.obj.sizeOf_spec, List.cons.sizeOf_spec,
                  Prod.mk.sizeOf_spec] at hm ⊢
                omega
              exact ih (sizeOf yv + 1) (by omega) yv (by omega) h3
      · exact absurd h (by decide)

theorem serializeJson_no_nl (v : MiniJson) : '\n' ∉ serializeJson v :=
  serializeJson_no_nl_aux (sizeOf v + 1) v (Nat.lt_succ_self _)

/-! ### C9: the raw frame is a clean buffer -/

theorem cleanBuf_cons_no_nl (c : Char) (t : List Char) (hc : ¬ c = '\n') :
    cleanBuf (c :: t) = cleanBuf t := by
  rw [cleanBuf.eq_def]
  dsimp only
  rw [if_neg hc]

theorem cleanBuf_append_no_nl : ∀ (xs ys : List Char), (∀ c ∈ xs, ¬ c = '\n') →
    cleanBuf (xs ++ ys) = cleanBuf ys := by
  intro xs ys
  induction xs with
  | nil => intro _; rfl
  | cons c r ih =>
    intro h
    rw [show (c :: r) ++ ys = c :: (r ++ ys) from rfl]
    rw [cleanBuf_cons_no_nl c (r ++ ys) (h c (by simp))]
    exact ih (fun e he => h e (by simp [he]))

theorem cleanBuf_of_no_nl (xs : List Char) (h : ∀ c ∈ xs, ¬ c = '\n') :
    cleanBuf xs = true := by
  have h2 := cleanBuf_append_no_nl xs [] h
  rw [List.append_nil] at h2
  rw [h2]
  rfl

theorem cleanBuf_nl_cons (c : Char) (r : List Char) (hc : ¬ c = '\n') :
    cleanBuf ('\n' :: c :: r) = cleanBuf (c :: r) := by
  rw [show cleanBuf ('\n' :: c :: r) =
    (if c = '\n' then false else cleanBuf (c :: r)) from rfl]
  rw [if_neg hc]

theorem cleanBuf_rawFrame (e d : List Char) (he : ∀ c ∈ e, ¬ c = '\n')
    (hd : ∀ c ∈ d, ¬ c = '\n') : cleanBuf (rawFrame e d) = true := by
  have hev : ∀ c ∈ "event: ".toList ++ e, ¬ c = '\n' := by
    intro c hc
    rcases List.mem_append.mp hc with h1 | h2
    · intro he2
      subst he2
      revert h1
      decide
    · exact he c h2
  have hda : ∀ c ∈ "data: ".toList ++ d, ¬ c = '\n' := by
    intro c hc
    rcases List.mem_append.mp hc with h1 | h2
    · intro he2
      subst he2
      revert h1
      decide
    · exact hd c h2
  rw [show rawFrame e d = ("event: ".toList ++ e) ++ '\n' :: ("data: ".toList ++ d)
    from by simp [rawFrame]]
  rw [cleanBuf_append_no_nl _ _ hev]
  rw [show ('\n' :: ("data: ".toList ++ d)) = '\n' :: 'd' :: ("ata: ".toList ++ d)
    from rfl]
  rw [cleanBuf_nl_cons 'd' _ (by decide)]
  rw [show ('d' :: ("ata: ".toList ++ d)) = "data: ".toList ++ d from rfl]
  rw [cleanBuf_append_no_nl "data: ".toList d (by decide)]
  exact cleanBuf_of_no_nl d hd

/-- **C9.** For every sequence of frames whose event names contain no newline
and whose payloads are JSON values, and for every way the concatenated
`sseChunk` byte stream is split into read chunks, the client's buffered SSE
parser (blank-line splitting, `event:`/`data:` line extraction, `JSON.parse`)
recovers exactly the event names and payloads: the protocol round-trips,
independently of chunking. -/
theorem sse_roundtrip (frames : List (List Char × MiniJson)) (chunks : List (List Char))
    (hev : ∀ f ∈ frames, ∀ c ∈ f.1, ¬ c = '\n')
    (hchunks : chunks.flatten =
      (frames.map (fun f => sseChunkL f.1 (serializeJson f.2))).flatten) :
    clientEvents chunks = frames.map (fun f => (f.1, some f.2)) := by
  have hmap : (frames.map (fun f => sseChunkL f.1 (serializeJson f.2))) =
      ((frames.map (fun f => rawFrame f.1 (serializeJson f.2))).map
        (fun r => r ++ ['\n', '\n'])) := by
    rw [List.map_map]
    apply List.map_congr_left
    intro f _
    show sseChunkL f.1 (serializeJson f.2) =
      rawFrame f.1 (serializeJson f.2) ++ ['\n', '\n']
    simp [sseChunkL, rawFrame]
  have hclean : ∀ r ∈ frames.map (fun f => rawFrame f.1 (serializeJson f.2)),
      cleanBuf r = true := by
    intro r hr
    rw [List.mem_map] at hr
    obtain ⟨f, hf, rfl⟩ := hr
    exact cleanBuf_rawFrame f.1 (serializeJson f.2) (hev f hf)
      (fun c hc hcn => serializeJson_no_nl f.2 (hcn ▸ hc))
  have hreader : runReader chunks =
      (frames.map (fun f => rawFrame f.1 (serializeJson f.2)), []) := by
    rw [runReader_satChop, hchunks, hmap]
    exact satChop_frames _ hclean
  rw [clientEvents, hreader]
  rw [show ((frames.map (fun f => rawFrame f.1 (serializeJson f.2)), ([] : List Char)).1)
    = frames.map (fun f => rawFrame f.1 (serializeJson f.2)) from rfl]
  rw [List.map_map]
  apply List.map_congr_left
  intro f hf
  show ((parseFrame (rawFrame f.1 (serializeJson f.2))).1,
    (parseFrame (rawFrame f.1 (serializeJson f.2))).2.bind jsonParseFull) =
    (f.1, some f.2)
  rw [parseFrame_rawFrame f.1 (serializeJson f.2) (hev f hf)
    (fun c hc hcn => serializeJson_no_nl f.2 (hcn ▸ hc))]
  show (f.1, jsonParseFull (serializeJson f.2)) = (f.1, some f.2)
  rw [jsonParseFull_serialize]

/-- Witness for C9: a one-frame stream delivered as a single chunk
round-trips. -/
theorem sse_roundtrip_witness :
    clientEvents [sseChunkL ['p'] (serializeJson MiniJson.null)] =
      [(['p'], some MiniJson.null)] :=
  sse_roundtrip [(['p'], MiniJson.null)] [sseChunkL ['p'] (serializeJson MiniJson.null)]
    (by decide) (by simp)
